import Mathlib

/-!
Verification of the variation-discovery and crawl-controller core of the
jdm-timbertech-scraper repository (src/src/scraper.js and the extended
scraper embedded in src/.github/workflows/publish-timbertech.yml).

Strings are modelled as `List Char` (JS strings; UTF-16 length subtleties do
not arise in the claims).  Each definition is a direct translation of the
corresponding JavaScript; external collaborators (the browser's DOM access,
the WHATWG URL parser, the filesystem, timers) are modelled explicitly and
are marked as such in their doc comments.
-/

namespace Scraper

/-- JS strings modelled as character lists. -/
abbrev Str := List Char

/-- Whether the subject (second argument) starts with the pattern (first
argument).  Models `String.prototype.startsWith`. -/
def startsWithL : Str → Str → Bool
  | [], _ => true
  | _ :: _, [] => false
  | p :: ps, c :: cs => p == c && startsWithL ps cs

/-- Models `String.prototype.includes`: `pat` occurs as a contiguous
substring of the second argument. -/
def containsSub (pat : Str) : Str → Bool
  | [] => startsWithL pat []
  | c :: cs => startsWithL pat (c :: cs) || containsSub pat cs

/-- Split on a single separator character.  Models
`String.prototype.split(sep)` for a one-character separator: the result is
the list of (possibly empty) chunks between occurrences of `sep`. -/
def splitOnChar (sep : Char) : Str → List Str
  | [] => [[]]
  | c :: cs =>
    match splitOnChar sep cs with
    | [] => if c == sep then [[], []] else [[c]]
    | t :: ts => if c == sep then [] :: t :: ts else (c :: t) :: ts

/-- Whitespace set used by `trim` (the JS whitespace characters that occur
in practice in class attributes and text content). -/
def isWS (c : Char) : Bool :=
  c == ' ' || c == '\t' || c == '\n' || c == '\r'

/-- Models `String.prototype.trim`. -/
def trimL (s : Str) : Str :=
  ((s.dropWhile isWS).reverse.dropWhile isWS).reverse

/-- First occurrence of `pat` in the subject replaced by `repl`; the rest is
left untouched.  Models `String.prototype.replace(pat, repl)` with a string
pattern (which replaces only the first occurrence).  `pat` is assumed
non-empty (it is the literal `"*"` at the only call site). -/
def replaceFirst (pat repl : Str) : Str → Str
  | [] => []
  | c :: cs =>
    if startsWithL pat (c :: cs) then repl ++ (c :: cs).drop pat.length
    else c :: replaceFirst pat repl cs

/-- Models `Array.prototype.slice(0, e)` for a possibly negative end index
`e`: a negative end counts from the end of the array. -/
def jsTake (e : Int) (l : List α) : List α :=
  if e < 0 then l.take ((l.length : Int) + e).toNat else l.take e.toNat

/-- Worker of `insertionDedup`: `seen` holds the already-emitted
elements. -/
def insertionDedupGo (seen : List Str) : List Str → List Str
  | [] => []
  | x :: xs =>
    if x ∈ seen then insertionDedupGo seen xs
    else x :: insertionDedupGo (seen ++ [x]) xs

/-- Insertion-ordered deduplication, keeping the first occurrence of each
element.  Models `[...new Set(list)]`. -/
def insertionDedup (l : List Str) : List Str :=
  insertionDedupGo [] l

/-! ## Element snapshots (scraper.js `findElementVariations`, lines 185-364)

A `RawElemSnapshot` packages everything the source extracts from one DOM
element handle via the external browser collaborator (`getAttribute`,
`evaluate`, `boundingBox`): the raw class string, the lowercased tag name,
the text content, the descendant images, the id/anchor data, the bounding
box, and the element's 0-based position among *all* children of its parent
(`Array.from(parent.children).indexOf(el)` in the source; `none` models a
missing parent).  `extractOk = false` models any of those awaited extraction
steps throwing, which the source catches per element (line 354). -/

/-- One descendant `img` of a candidate element: its `src` (after the
`img.src || img.getAttribute("src") || ""` chain) and its `alt`
(`img.alt || ""`). -/
structure ImageInfo where
  src : Str
  alt : Str
deriving Repr, DecidableEq

/-- The anchor data extracted by the `evaluate` on scraper.js lines 255-291;
its computation is DOM traversal by the external collaborator, so it is
carried through the model as already-extracted data. -/
structure AnchorData where
  elementId : Option Str
  headingIds : List Str
  otherIds : List Str
  anchorLinks : List Str
deriving Repr, DecidableEq

/-- Snapshot of one candidate element, as extracted by the browser
collaborator. -/
structure RawElemSnapshot where
  /-- `(await element.getAttribute("class")) || ""`. -/
  className : Str
  /-- `el.tagName.toLowerCase()`. -/
  tagName : Str
  /-- `el.textContent || ""`. -/
  textContent : Str
  /-- The descendant images `el.querySelectorAll("img")`, in DOM order. -/
  images : List ImageInfo
  /-- Anchor/id data (scraper.js lines 255-291). -/
  anchorData : AnchorData
  /-- `await element.boundingBox()`: `none` when the element has no box;
  only x and y are consumed by the fingerprint, so the box is (x, y). -/
  boundingBox : Option (Int × Int)
  /-- 0-based index of the element among all children of its parent
  (`allChildren.indexOf(el)`, scraper.js line 302); `none` models
  `el.parentElement` being null. -/
  childIndex : Option Nat
  /-- Whether the per-element extraction succeeds; `false` models any await
  in the per-element `try` block throwing (caught at line 354). -/
  extractOk : Bool
deriving Repr, DecidableEq

/-- Per-image descriptor (scraper.js lines 220-235): alt text capped at 50
characters (with `"..."` appended exactly when the alt is longer than 50),
else the filename `src.split("/").pop() || src`, else the literal
`"[Image]"`. -/
def imageDescriptor (img : ImageInfo) : Str :=
  let filename :=
    match (splitOnChar '/' img.src).getLast? with
    | some last => if last.isEmpty then img.src else last
    | none => img.src
  if !img.alt.isEmpty then
    "[Image: ".data ++ img.alt.take 50 ++
      (if img.alt.length > 50 then "...".data else []) ++ "]".data
  else if !filename.isEmpty then
    "[Image: ".data ++ filename ++ "]".data
  else
    "[Image]".data

/-- The enhanced text-content extraction (scraper.js lines 209-252): with at
least one descendant image, minimal (< 20 chars trimmed) text is replaced by
the joined image descriptors; longer text is cut to its first 30 characters,
gets `"..."` exactly when the *untrimmed* text is longer than 30 characters,
and is followed by the parenthesised image descriptors; without images the
trimmed text is returned. -/
def contentInfo (el : RawElemSnapshot) : Str :=
  if !el.images.isEmpty then
    let imageInfo := List.intercalate ", ".data (el.images.map imageDescriptor)
    if (trimL el.textContent).length < 20 then imageInfo
    else
      (trimL el.textContent).take 30 ++
        (if el.textContent.length > 30 then "...".data else []) ++
        " (".data ++ imageInfo ++ ")".data
  else trimL el.textContent

/-- Decimal rendering of an integer, for the template-literal interpolation
of bounding-box coordinates. -/
def intChars (i : Int) : Str := (toString i).data

/-- Decimal rendering of a natural number, for the `:nth-child(N)`
interpolation. -/
def natChars (n : Nat) : Str := (toString n).data

/-- The fingerprint key of an element (scraper.js lines 306-308):
`` `${tagName}-${classNames}-${boundingBox?.x || 0}-${boundingBox?.y || 0}` ``
— the lowercase tag, the raw class string and the bounding-box x/y (0 when
the box is missing), joined by `-`. -/
def fingerprint (el : RawElemSnapshot) : Str :=
  let x := match el.boundingBox with | some b => b.1 | none => 0
  let y := match el.boundingBox with | some b => b.2 | none => 0
  el.tagName ++ "-".data ++ el.className ++ "-".data ++ intChars x ++
    "-".data ++ intChars y

/-- Matcher used by `stripNthChild`: if the list starts with a match of
the regex `:\s*nth-child\(\d+\)`, return the remainder after the
match. -/
def matchNthChildAt (l : Str) : Option Str :=
  match l with
  | ':' :: rest =>
    let rest2 := rest.dropWhile isWS
    if startsWithL "nth-child(".data rest2 then
      let rest3 := rest2.drop 10
      let ds := rest3.takeWhile Char.isDigit
      if ds.isEmpty then none
      else
        match rest3.drop ds.length with
        | ')' :: rest4 => some rest4
        | _ => none
    else none
  | _ => none

/-- Models `selector.replace(/:\s*nth-child\(\d+\)/, "")` (scraper.js line
317): the first occurrence of an `:nth-child(k)` clause (with optional
whitespace after the colon) is removed; without the `g` flag the JS regex
replace rewrites only the first match. -/
def stripNthChild : Str → Str
  | [] => []
  | c :: cs =>
    match matchNthChildAt (c :: cs) with
    | some rest => rest
    | none => c :: stripNthChild cs

/-- The Variation record built for each accepted element (scraper.js lines
318-331). -/
structure Variation where
  index : Nat
  selector : Str
  actualSelector : Str
  tagName : Str
  classNames : List Str
  textContent : Str
  boundingBox : Option (Int × Int)
  screenshotPath : Option Str
  anchorData : AnchorData
deriving Repr, DecidableEq

/-- The class-token list stored on a Variation (scraper.js line 326):
`classNames.split(" ").filter((cls) => cls.trim())`. -/
def classTokens (className : Str) : List Str :=
  (splitOnChar ' ' className).filter (fun c => !(trimL c).isEmpty)

/-- The 1-based position used for `:nth-child` (scraper.js lines 296-303):
index among *all* children of the immediate parent plus one, or 1 when the
element has no parent. -/
def actualPosition (el : RawElemSnapshot) : Nat :=
  match el.childIndex with
  | none => 1
  | some i => i + 1

/-- Builds the Variation record for element `el` found at enumeration index
`i` under the query `selector` (scraper.js lines 316-331). -/
def buildVariation (selector : Str) (i : Nat) (el : RawElemSnapshot) :
    Variation :=
  let baseSelector := stripNthChild selector
  { index := i
    selector := replaceFirst "*".data el.tagName baseSelector ++
      ":nth-child(".data ++ natChars (actualPosition el) ++ ")".data
    actualSelector := baseSelector ++ ":nth-child(".data ++
      natChars (actualPosition el) ++ ")".data
    tagName := el.tagName
    classNames := classTokens el.className
    textContent := (contentInfo el).take 150
    boundingBox := el.boundingBox
    screenshotPath := none
    anchorData := el.anchorData }

/-- The class-prefix filter (scraper.js lines 334-349): with an empty filter
string every candidate passes; otherwise the candidate passes exactly when
some class token contains the filter substring and no class token contains
both the filter substring and `"__"`. -/
def variationFilter (pfx : Str) (classNames : List Str) : Bool :=
  if pfx.isEmpty then true
  else
    (classNames.any fun cls => containsSub pfx cls) &&
      !(classNames.any fun cls =>
        containsSub pfx cls && containsSub "__".data cls)

/-- In-scan state of `findElementVariations`: the fingerprint keys already
marked processed and the accepted elements paired with their Variation
records (the source keeps only the Variations; the snapshot is kept
alongside so that theorems can speak about the originating element). -/
structure ScanState where
  processedKeys : List Str
  accepted : List (RawElemSnapshot × Variation)
deriving Repr

/-- One iteration of the `findElementVariations` loop (scraper.js lines
198-357) on element `el` at index `i`: a failed extraction is skipped (the
per-element catch), a fingerprint already in the processed set is skipped, a
candidate rejected by the class filter is skipped, and otherwise the key is
marked processed and the Variation appended. -/
def processElem (selector pfx : Str) (st : ScanState) (i : Nat)
    (el : RawElemSnapshot) : ScanState :=
  if !el.extractOk then st
  else
    let elementId := fingerprint el
    if elementId ∈ st.processedKeys then st
    else
      let variation := buildVariation selector i el
      if variationFilter pfx variation.classNames then
        { processedKeys := st.processedKeys ++ [elementId]
          accepted := st.accepted ++ [(el, variation)] }
      else st

/-- The scan pipeline of `findElementVariations` (scraper.js lines 185-364)
over the snapshots of the elements matching the selector, in enumeration
order, returning the accepted elements paired with their Variations. -/
def scanElements (selector pfx : Str) (els : List RawElemSnapshot) :
    ScanState :=
  els.enum.foldl (fun st p => processElem selector pfx st p.1 p.2)
    { processedKeys := [], accepted := [] }

/-- The list of Variations returned by `findElementVariations`. -/
def findElementVariations (selector pfx : Str)
    (els : List RawElemSnapshot) : List Variation :=
  (scanElements selector pfx els).accepted.map Prod.snd

/-! ## Screenshot pass (scraper.js `takeScreenshots`, lines 366-742) -/

/-- Apply `f` to the element at index `i`, leaving the rest unchanged. -/
def modifyIdx (f : α → α) : Nat → List α → List α
  | _, [] => []
  | 0, v :: vs => f v :: vs
  | n + 1, v :: vs => v :: modifyIdx f n vs

/-- The screenshot file name `` `element_${i}_${timestamp}.png` ``
(scraper.js line 379). -/
def screenshotName (i timestamp : Nat) : Str :=
  "element_".data ++ natChars i ++ "_".data ++ natChars timestamp ++
    ".png".data

/-- Model of `takeScreenshots` (scraper.js lines 366-742): at most
`min(variations.length, 50)` capture attempts, one per variation in list
order starting from index 0; on a successful attempt (element visible and
no capture error — the whole fallback chain is the external browser
collaborator, summarised by the `attempt` oracle) the variation's
`screenshotPath` is set to the generated file name (`timestamp` models
`Date.now()` at attempt `i`); on failure the variation is left unchanged. -/
def takeScreenshots (attempt : Nat → Bool) (timestamp : Nat → Nat)
    (variations : List Variation) : List Variation :=
  let screenshotCount := min variations.length 50
  (List.range screenshotCount).foldl
    (fun vars i =>
      modifyIdx
        (fun v =>
          if attempt i then
            { v with screenshotPath := some (screenshotName i (timestamp i)) }
          else v)
        i vars)
    variations

/-! ## Link discovery (publish-timbertech.yml `discoverSameDomainLinks`,
lines 1666-1737) -/

/-- Characters allowed in a URL scheme. -/
def isSchemeChar (c : Char) : Bool :=
  c.isAlpha || c.isDigit || c == '+' || c == '-' || c == '.'

/-- A character that does not terminate the authority component. -/
def notAuthEnd (c : Char) : Bool :=
  !(c == '/' || c == '?' || c == '#')

/-- The part of `l` after its last `'@'` (all of `l` when there is none);
used to drop URL userinfo. -/
def afterLastAt (l : Str) : Str :=
  (l.reverse.takeWhile (fun c => c != '@')).reverse

/-- Lowercasing, as the URL parser applies to hostnames. -/
def lowerStr (l : Str) : Str := l.map Char.toLower

/-- Models `new URL(u).hostname` of the browser's WHATWG URL parser (an
external collaborator): scheme, then `"://"`, then the authority up to the
first `/`, `?` or `#`; userinfo (up to the last `@`) and the port (after
`:`) are dropped and the host is lowercased.  `none` models the constructor
throwing on input this simplified parser rejects (IPv6 literals, punycode
and percent-decoding are not modelled). -/
def hostname (u : Str) : Option Str :=
  if (u.takeWhile isSchemeChar).isEmpty then none
  else if startsWithL "://".data (u.dropWhile isSchemeChar) then
    let rest := (u.dropWhile isSchemeChar).drop 3
    let auth := rest.takeWhile notAuthEnd
    let host := (afterLastAt auth).takeWhile (fun c => c != ':')
    if host.isEmpty then none else some (lowerStr host)
  else none

/-- Models `new URL(href, base).toString()` for a relative `href` (an
external collaborator): the base's scheme and authority are kept and the
href is attached after the base path's last `/` (dot-segment normalisation
and base query/fragment handling are not modelled; no claim depends on
them). -/
def urlResolve (base href : Str) : Option Str :=
  let scheme := base.takeWhile isSchemeChar
  if scheme.isEmpty then none
  else if startsWithL "://".data (base.dropWhile isSchemeChar) then
    let rest := (base.dropWhile isSchemeChar).drop 3
    let auth := rest.takeWhile notAuthEnd
    let path :=
      (rest.dropWhile notAuthEnd).takeWhile (fun c => !(c == '?' || c == '#'))
    let dir :=
      if path.contains '/' then
        (path.reverse.dropWhile (fun c => c != '/')).reverse
      else ['/']
    some (scheme ++ ':' :: '/' :: '/' :: (auth ++ dir ++ href))
  else none

/-- Model of `absoluteUrl.split("#")[0].split("?")[0]` (yml line 1703):
everything
from the first `#` and then from the first `?` removed. -/
def cleanUrl (u : Str) : Str :=
  (u.takeWhile (fun c => c != '#')).takeWhile (fun c => c != '?')

/-- The rendered page as seen by the in-page `evaluate` of
`discoverSameDomainLinks`: the location's protocol (with trailing `:`, as
`window.location.protocol` yields) and full href, and the `href` attributes
of all `a[href]` elements in DOM order (an attribute that is present but
empty is modelled as `[]`, which the `if (!href) return` guard skips). -/
structure PageDom where
  protocol : Str
  href : Str
  anchors : List Str
deriving Repr, DecidableEq

/-- Resolution of one anchor's `href` attribute (yml lines 1681-1697):
root-relative hrefs are glued to the current page's protocol and the
`domain` argument; hrefs starting with `"http"` pass through; fragment-only,
`mailto:` and `tel:` hrefs are dropped; every other form resolves against
the current page URL. -/
def resolveHref (dom : PageDom) (domain : Str) (href : Str) : Option Str :=
  if href.isEmpty then none
  else if startsWithL "/".data href then
    some (dom.protocol ++ "//".data ++ domain ++ href)
  else if startsWithL "http".data href then some href
  else if !(startsWithL "#".data href) && !(startsWithL "mailto:".data href)
      && !(startsWithL "tel:".data href) then
    urlResolve dom.href href
  else none

/-- Model of `discoverSameDomainLinks` (yml lines 1666-1737): resolve
every anchor
href, keep those whose hostname equals `domain`, strip fragment and query,
deduplicate in insertion order, drop already-visited URLs, then apply the
include patterns (when non-empty) followed by the exclude patterns (when
non-empty).  A URL the parser rejects is skipped (the per-anchor catch). -/
def discoverSameDomainLinks (domain : Str) (visited : List Str)
    (includePatterns excludePatterns : List Str) (dom : PageDom) :
    List Str :=
  let discovered := dom.anchors.filterMap (fun href =>
    match resolveHref dom domain href with
    | none => none
    | some abs =>
      match hostname abs with
      | some linkDomain =>
        if linkDomain == domain then some (cleanUrl abs) else none
      | none => none)
  let links := insertionDedup discovered
  let newLinks := links.filter (fun u => !(visited.contains u))
  let afterInclude :=
    if includePatterns.isEmpty then newLinks
    else newLinks.filter (fun u => includePatterns.any (fun p => containsSub p u))
  if excludePatterns.isEmpty then afterInclude
  else afterInclude.filter (fun u => !(excludePatterns.any (fun p => containsSub p u)))

/-! ## Crawl controller (publish-timbertech.yml `scrapeSitemap`,
lines 1458-1660) -/

/-- What one page does when the controller reaches it: `navResult = some
msg` models `navigateToPage`/`findElementVariations`/`takeScreenshots`
throwing `msg` (caught at yml line 1612); on success, `variationsFound`
variations are collected and `dom` is what `discoverSameDomainLinks` sees. -/
structure PageModel where
  navResult : Option Str
  variationsFound : Nat
  dom : PageDom

/-- The options object of `scrapeSitemap` (yml lines 1464-1473), after
defaulting.  `delayBetweenPages` only pauses the controller (yml lines
1603-1611) and has no observable effect on the crawl result, but is kept
for completeness. -/
structure CrawlOpts where
  maxUrls : Nat
  includePatterns : List Str
  excludePatterns : List Str
  delayBetweenPages : Nat
  continueOnError : Bool
  followLinks : Bool
  maxDepth : Nat

/-- Record of one link-discovery step (yml lines 1572-1601): the processed
count when it ran, the links `discoverSameDomainLinks` returned, the queue
before the append, `remainingSlots = maxUrls - processedCount -
queue.length`, the slice of the new links actually appended, and the queue
after the append. -/
structure DiscoveryInfo where
  pcAt : Nat
  newLinks : List Str
  queueBefore : List Str
  remainingSlots : Int
  appended : List Str
  queueAfter : List Str
deriving Repr, DecidableEq

/-- Observable events of one crawl, in order: a dequeued URL skipped as
already visited, a page processed successfully (with its discovery step, if
one ran), or a page whose navigation/scan failed.  `pc` is the value of
`processedCount` right after the event's page was counted (unchanged for
`skipped`). -/
inductive CrawlEvent where
  | skipped (url : Str) (pc : Nat)
  | pageOk (url : Str) (pc : Nat) (disc : Option DiscoveryInfo)
  | pageFail (url : Str) (pc : Nat) (msg : Str)
deriving Repr, DecidableEq

/-- The crawl-session state owned by `scrapeSitemap`: the FIFO queue, the
visited set, `processedCount`, the trace of navigated URLs, the failures,
the running variation total and the event trace. -/
structure CrawlState where
  queue : List Str
  visited : List Str
  processedCount : Nat
  processedUrls : List Str
  failedUrls : List (Str × Str)
  totalVariations : Nat
  events : List CrawlEvent

/-- The state after the loop of `scrapeSitemap` dequeues an
already-visited URL (yml lines 1526-1528): only the queue shrinks;
`processedCount` is not incremented. -/
def skipSucc (s : CrawlState) (url : Str) (rest : List Str) : CrawlState :=
  { s with queue := rest
           events := s.events ++ [.skipped url s.processedCount] }

/-- The state after a page whose navigation or scan threw (yml lines
1612-1615): the URL was already marked visited and counted, and the pair
(url, message) is pushed onto `failedUrls`. -/
def failSucc (s : CrawlState) (url msg : Str) (rest : List Str) :
    CrawlState :=
  { queue := rest
    visited := s.visited ++ [url]
    processedCount := s.processedCount + 1
    processedUrls := s.processedUrls ++ [url]
    failedUrls := s.failedUrls ++ [(url, msg)]
    totalVariations := s.totalVariations
    events := s.events ++ [.pageFail url (s.processedCount + 1) msg] }

/-- The link-discovery step after a successful page (yml lines 1571-1601):
runs exactly when `followLinks` holds and the just-incremented
`processedCount` is below `maxDepth`; appends
`newLinks.slice(0, maxUrls - processedCount - queue.length)` to the tail
of the queue. -/
def okDisc (baseDomain : Str) (o : CrawlOpts) (s : CrawlState) (url : Str)
    (rest : List Str) (page : PageModel) : Option DiscoveryInfo :=
  if o.followLinks && decide (s.processedCount + 1 < o.maxDepth) then
    let newLinks := discoverSameDomainLinks baseDomain
      (s.visited ++ [url]) o.includePatterns o.excludePatterns page.dom
    let remainingSlots : Int :=
      (o.maxUrls : Int) - ((s.processedCount + 1 : Nat) : Int) -
        (rest.length : Int)
    let linksToAdd := jsTake remainingSlots newLinks
    some { pcAt := s.processedCount + 1, newLinks := newLinks
           queueBefore := rest
           remainingSlots := remainingSlots
           appended := linksToAdd
           queueAfter := rest ++ linksToAdd }
  else none

/-- The state after a successfully processed page (yml lines 1532-1611):
visited and counted, its variations appended to the running total, and the
queue extended by the discovery step when one ran. -/
def okSucc (baseDomain : Str) (o : CrawlOpts) (s : CrawlState) (url : Str)
    (rest : List Str) (page : PageModel) : CrawlState :=
  let disc := okDisc baseDomain o s url rest page
  { queue := match disc with | some d => d.queueAfter | none => rest
    visited := s.visited ++ [url]
    processedCount := s.processedCount + 1
    processedUrls := s.processedUrls ++ [url]
    failedUrls := s.failedUrls
    totalVariations := s.totalVariations + page.variationsFound
    events := s.events ++ [.pageOk url (s.processedCount + 1) disc] }

/-- The while loop of `scrapeSitemap` (yml lines 1522-1620).  Each round:
stop when the queue is empty or `processedCount` has reached `maxUrls`;
dequeue; skip an already-visited URL; otherwise mark it visited, count it,
and either record the failure (aborting with the error when
`continueOnError` is false) or collect its variations and — when
`followLinks` holds and `processedCount < maxDepth` — append up to
`remainingSlots` discovered links at the tail of the queue. -/
def crawlLoop (site : Str → PageModel) (baseDomain : Str) (o : CrawlOpts)
    (s : CrawlState) : Except (Str × CrawlState) CrawlState :=
  if hq : s.queue = [] then .ok s
  else if hpc : s.processedCount < o.maxUrls then
    let url := s.queue.head hq
    let rest := s.queue.tail
    if url ∈ s.visited then
      crawlLoop site baseDomain o (skipSucc s url rest)
    else
      match (site url).navResult with
      | some msg =>
        if o.continueOnError then
          crawlLoop site baseDomain o (failSucc s url msg rest)
        else .error (msg, failSucc s url msg rest)
      | none =>
        crawlLoop site baseDomain o (okSucc baseDomain o s url rest
          (site url))
  else .ok s
termination_by (o.maxUrls - s.processedCount, s.queue.length)
decreasing_by
· apply Prod.Lex.right
  have hpos : 0 < s.queue.length := List.length_pos.mpr hq
  simp only [skipSucc, List.length_tail]
  omega
· apply Prod.Lex.left
  simp only [failSucc]
  omega
· apply Prod.Lex.left
  simp only [okSucc]
  omega

/-- The aggregate statistics returned by `scrapeSitemap` (yml lines
1646-1650). -/
structure ScrapeStats where
  totalPages : Nat
  successfulPages : Nat
  totalVariations : Nat
deriving Repr, DecidableEq

/-- The successful return value of `scrapeSitemap` (the report path is
produced by an external collaborator and not modelled). -/
structure ScrapeOk where
  stats : ScrapeStats
  failedUrls : List (Str × Str)
  finalState : CrawlState

/-- The observable outcome of one `scrapeSitemap` call: the returned value
or the propagated error (with the crawl state at abort), together with how
many times the `finally` block closed the browser. -/
structure ScrapeOutput where
  result : Except (Str × CrawlState) ScrapeOk
  browserCloses : Nat

/-- The crawl state before the pre-loop throw paths ever touch it. -/
def emptyCrawlState : CrawlState :=
  { queue := [], visited := [], processedCount := 0, processedUrls := []
    failedUrls := [], totalVariations := 0, events := [] }

/-- Model of `scrapeSitemap` (yml lines 1458-1660).  `manualUrls = some m`
models a
provided manual URL array (truncated to `maxUrls`, yml line 1490);
otherwise `sitemapUrls` is the filtered sitemap list that
`ScraperUtils.fetchSitemapUrls` computed, which utils.js line 233 truncates
to `maxUrls`.  An empty URL list throws before `initialize()`, so the
browser is never opened and the `finally` block closes nothing; on every
path after `initialize()` the `finally` block closes the browser exactly
once.  On success the stats are computed from the initial `urls` list. -/
def scrapeSitemap (site : Str → PageModel) (baseUrl : Str) (o : CrawlOpts)
    (manualUrls : Option (List Str)) (sitemapUrls : List Str) :
    ScrapeOutput :=
  let urls :=
    match manualUrls with
    | some m => m.take o.maxUrls
    | none => sitemapUrls.take o.maxUrls
  if urls.isEmpty then
    { result := .error ("No URLs found in sitemap or after filtering".data,
        emptyCrawlState)
      browserCloses := 0 }
  else
    match hostname baseUrl with
    | none =>
      { result := .error ("Invalid URL".data, emptyCrawlState)
        browserCloses := 1 }
    | some baseDomain =>
      match crawlLoop site baseDomain o
        { queue := urls, visited := [], processedCount := 0
          processedUrls := [], failedUrls := [], totalVariations := 0
          events := [] } with
      | .ok s =>
        { result := .ok
            { stats :=
                { totalPages := urls.length
                  successfulPages := urls.length - s.failedUrls.length
                  totalVariations := s.totalVariations }
              failedUrls := s.failedUrls
              finalState := s }
          browserCloses := 1 }
      | .error e => { result := .error e, browserCloses := 1 }

/-! ## Predicates and invariants used by the theorems -/

/-- The `processedCount` recorded with an event. -/
def eventPc : CrawlEvent → Nat
  | .skipped _ pc => pc
  | .pageOk _ pc _ => pc
  | .pageFail _ pc _ => pc

/-- Soundness of one recorded crawl event with respect to the options: the
recorded processed count is within the cap; a successful page carries a
discovery step exactly when `followLinks` holds and the count is below
`maxDepth`; and the discovery data satisfies the `remainingSlots`
bookkeeping, with the appended links being the prefix of the discovered
links of length `remainingSlots`, put at the tail of the queue. -/
def eventOk (o : CrawlOpts) : CrawlEvent → Prop
  | .skipped _ pc => pc ≤ o.maxUrls
  | .pageFail _ pc _ => pc ≤ o.maxUrls
  | .pageOk _ pc disc =>
    pc ≤ o.maxUrls ∧
    disc.isSome = (o.followLinks && decide (pc < o.maxDepth)) ∧
    ∀ d, disc = some d →
      d.pcAt = pc ∧
      d.remainingSlots =
        (o.maxUrls : Int) - (pc : Int) - (d.queueBefore.length : Int) ∧
      0 ≤ d.remainingSlots ∧
      d.appended = d.newLinks.take d.remainingSlots.toNat ∧
      d.queueAfter = d.queueBefore ++ d.appended

/-- The loop invariant of `crawlLoop`: the processed count plus the queue
length stays within `maxUrls` (true of the initial state because both URL
sources are truncated to `maxUrls`), each URL is navigated at most once and
only after being marked visited, `processedCount` counts exactly the
navigations, all recorded events are sound, and every recorded failure
event has its pair in `failedUrls`. -/
def crawlInv (o : CrawlOpts) (s : CrawlState) : Prop :=
  s.processedCount + s.queue.length ≤ o.maxUrls ∧
  s.processedUrls.Nodup ∧
  (∀ u ∈ s.processedUrls, u ∈ s.visited) ∧
  s.processedUrls.length = s.processedCount ∧
  (∀ ev ∈ s.events, eventOk o ev) ∧
  (∀ url pc msg, CrawlEvent.pageFail url pc msg ∈ s.events →
    (url, msg) ∈ s.failedUrls)

/-- The crawl state at loop exit, whether the loop returned or aborted. -/
def resState : Except (Str × CrawlState) CrawlState → CrawlState
  | .ok s => s
  | .error (_, s) => s

/-- The depth-gate property of a crawl's event trace, for `followLinks =
true`: a successful page ran link discovery exactly when its processed
count was below `maxDepth`; when it did, `remainingSlots` was
`maxUrls - processedCount - queue.length` (never negative), the appended
links are the first `remainingSlots` discovered links, and they went to
the tail of the queue. -/
def depthGateOk (o : CrawlOpts) (s : CrawlState) : Prop :=
  ∀ url pc disc, CrawlEvent.pageOk url pc disc ∈ s.events →
    (disc.isSome = true ↔ pc < o.maxDepth) ∧
    ∀ d, disc = some d →
      d.pcAt = pc ∧
      d.remainingSlots = (o.maxUrls : Int) - (pc : Int) -
        (d.queueBefore.length : Int) ∧
      0 ≤ d.remainingSlots ∧
      d.appended = d.newLinks.take d.remainingSlots.toNat ∧
      d.appended.length ≤ d.remainingSlots.toNat ∧
      d.queueAfter = d.queueBefore ++ d.appended

/-! ## Concrete inputs used by counterexamples and witnesses -/

/-- An element with the single class `wp-block-button`. -/
def elWpButton : RawElemSnapshot :=
  { className := "wp-block-button".data, tagName := "div".data
    textContent := [], images := [], anchorData := ⟨none, [], [], []⟩
    boundingBox := some (0, 0), childIndex := some 0, extractOk := true }

/-- An element with the single class `wp-block-button__link`. -/
def elWpLink : RawElemSnapshot :=
  { elWpButton with className := "wp-block-button__link".data }

/-- An element with classes `wp-block-button` and `wp-block-button__link`. -/
def elWpBoth : RawElemSnapshot :=
  { elWpButton with
    className := "wp-block-button wp-block-button__link".data }

/-- A second element sharing `elWpButton`'s fingerprint (same tag, class
string and coordinates) but with different text content. -/
def elWpDup : RawElemSnapshot :=
  { elWpButton with textContent := "other text".data }

/-- C8 counterexample element: one image with alt `pic`, and text of 21
characters (so the trimmed length is ≥ 20 while the untrimmed length is
≤ 30). -/
def elC8 : RawElemSnapshot :=
  { className := [], tagName := "div".data
    textContent := "abcdefghijklmnopqrstu".data
    images := [{ src := "x.png".data, alt := "pic".data }]
    anchorData := ⟨none, [], [], []⟩
    boundingBox := some (0, 0), childIndex := some 0, extractOk := true }

/-- Modelled from the spec, for comparison only: the summary claim C8
predicts for an element with images and trimmed text of length ≥ 20 —
"output is `\"<first 30 chars>... (<image descriptors>)\"`", i.e. with the
ellipsis appended unconditionally. -/
def claimSummaryLong (el : RawElemSnapshot) : Str :=
  (trimL el.textContent).take 30 ++ "...".data ++ " (".data ++
    List.intercalate ", ".data (el.images.map imageDescriptor) ++ ")".data

/-- C9 witness element: a `span` sitting at 0-based child index 2 of its
parent. -/
def elC9 : RawElemSnapshot :=
  { className := "wp-block-button".data, tagName := "span".data
    textContent := [], images := [], anchorData := ⟨none, [], [], []⟩
    boundingBox := some (4, 7), childIndex := some 2, extractOk := true }

/-- C9 witness selector, with a pre-existing `:nth-child(1)` clause and a
`*` wildcard. -/
def selC9 : Str := "*:nth-child(1)".data

/-- C7 counterexample page: located on `other.example`, containing one
root-relative link, crawled with base domain `a.example`. -/
def domC7 : PageDom :=
  { protocol := "https:".data, href := "https://other.example/page".data
    anchors := ["/x".data] }

/-- Modelled from the spec, for comparison only: claim C7's resolution rule
for root-relative hrefs — "root-relative hrefs (`/...`) are resolved
against the current page's scheme+domain", with the domain taken from the
current page's own URL. -/
def specRootRelative (dom : PageDom) (href : Str) : Str :=
  dom.protocol ++ "//".data ++
    (match hostname dom.href with | some h => h | none => []) ++ href

/-- A page set for crawl witnesses: every page succeeds with one variation
and links to `/a`, `/b` and `/c`; page `https://w.example/fail` fails. -/
def siteW : Str → PageModel := fun url =>
  if url = "https://w.example/fail".data then
    { navResult := some "net::ERR".data, variationsFound := 0
      dom := { protocol := "https:".data, href := url, anchors := [] } }
  else
    { navResult := none, variationsFound := 1
      dom := { protocol := "https:".data, href := url
               anchors := ["/a".data, "/b".data, "/c".data] } }

/-- Options for the crawl witnesses: `maxUrls = 2`, `maxDepth = 2`, link
following enabled, continue on error. -/
def optsW : CrawlOpts :=
  { maxUrls := 2, includePatterns := [], excludePatterns := []
    delayBetweenPages := 0, continueOnError := true, followLinks := true
    maxDepth := 2 }

/-- Options for the fatal-abort witness: `continueOnError = false`. -/
def optsAbort : CrawlOpts :=
  { optsW with continueOnError := false }

/-- A Variation shell used to build the 51-element screenshot witness
list. -/
def varBlank : Variation :=
  { index := 0, selector := [], actualSelector := [], tagName := "div".data
    classNames := [], textContent := [], boundingBox := none
    screenshotPath := none, anchorData := ⟨none, [], [], []⟩ }

/-- 51 variations, all without a screenshot path. -/
def varsC10 : List Variation := List.replicate 51 varBlank

/-- The stats of a successful `scrapeSitemap` outcome, `none` on error. -/
def okStats (out : ScrapeOutput) : Option ScrapeStats :=
  match out.result with
  | .ok r => some r.stats
  | .error _ => none

/-- The final `processedCount` of a successful outcome, `none` on error. -/
def okFinalPc (out : ScrapeOutput) : Option Nat :=
  match out.result with
  | .ok r => some r.finalState.processedCount
  | .error _ => none

/-- The navigated-URL trace of a successful outcome, `none` on error. -/
def okProcessedUrls (out : ScrapeOutput) : Option (List Str) :=
  match out.result with
  | .ok r => some r.finalState.processedUrls
  | .error _ => none

/-- The event trace of a successful outcome, `none` on error. -/
def okEvents (out : ScrapeOutput) : Option (List CrawlEvent) :=
  match out.result with
  | .ok r => some r.finalState.events
  | .error _ => none

/-- A two-URL manual seed list for the crawl witnesses. -/
def urlsW : List Str :=
  ["https://w.example/".data, "https://w.example/p2".data]

/-- The witness crawl outcome: two successful pages. -/
def outW : ScrapeOutput :=
  scrapeSitemap siteW "https://w.example".data optsW (some urlsW) []

/-- The abort-witness crawl outcome: the first page fails and
`continueOnError` is false. -/
def outAbortW : ScrapeOutput :=
  scrapeSitemap siteW "https://w.example".data optsAbort
    (some ["https://w.example/fail".data, "https://w.example/p2".data]) []

/-- The discovery step recorded for the first page of the witness crawl:
three same-domain links found, `remainingSlots = 2 - 1 - 1 = 0`, so none
appended. -/
def disc1W : DiscoveryInfo :=
  { pcAt := 1
    newLinks := ["https://w.example/a".data, "https://w.example/b".data,
      "https://w.example/c".data]
    queueBefore := ["https://w.example/p2".data]
    remainingSlots := 0
    appended := []
    queueAfter := ["https://w.example/p2".data] }

/-- The event trace of the witness crawl: two successful pages, discovery
running only on the first (`processedCount = 1 < maxDepth = 2`). -/
def eventsW : List CrawlEvent :=
  [.pageOk "https://w.example/".data 1 (some disc1W),
   .pageOk "https://w.example/p2".data 2 none]

/-- A one-URL state whose head is already visited, for the skip-equation
witness. -/
def sSkip : CrawlState :=
  { queue := ["u".data], visited := ["u".data], processedCount := 0
    processedUrls := [], failedUrls := [], totalVariations := 0
    events := [] }

/-! # Theorems

## Scan-pipeline helper lemmas -/

theorem foldl_processElem_inv (sel pfx : Str) (P : ScanState → Prop)
    (hstep : ∀ st i el, P st → P (processElem sel pfx st i el)) :
    ∀ (l : List (Nat × RawElemSnapshot)) (st : ScanState), P st →
      P (l.foldl (fun st p => processElem sel pfx st p.1 p.2) st)
  | [], _, h => h
  | p :: l, st, h =>
    foldl_processElem_inv sel pfx P hstep l _ (hstep st p.1 p.2 h)

theorem processElem_skip (sel pfx : Str) (st : ScanState) (i : Nat)
    (el : RawElemSnapshot) (h : fingerprint el ∈ st.processedKeys) :
    processElem sel pfx st i el = st := by
  unfold processElem
  by_cases hok : el.extractOk <;> simp [hok, h]

theorem processElem_accepted (sel pfx : Str) (st : ScanState) (i : Nat)
    (el : RawElemSnapshot) (hok : el.extractOk = true)
    (hkey : fingerprint el ∉ st.processedKeys) :
    (processElem sel pfx st i el).accepted =
      st.accepted ++
        (if variationFilter pfx (classTokens el.className) = true
          then [(el, buildVariation sel i el)] else []) := by
  unfold processElem
  by_cases hf : variationFilter pfx (classTokens el.className) = true <;>
    simp [hok, hkey, hf, buildVariation]

theorem scan_keys_nodup (sel pfx : Str) (els : List RawElemSnapshot) :
    ((scanElements sel pfx els).accepted.map
      (fun p => fingerprint p.1)).Nodup := by
  have h := foldl_processElem_inv sel pfx
    (fun st => (st.accepted.map (fun p => fingerprint p.1)).Nodup ∧
      ∀ k ∈ st.accepted.map (fun p => fingerprint p.1),
        k ∈ st.processedKeys)
    ?_ els.enum { processedKeys := [], accepted := [] } (by simp)
  · exact h.1
  · intro st i el hP
    unfold processElem
    by_cases hok : el.extractOk
    case neg => simpa [hok] using hP
    by_cases hkey : fingerprint el ∈ st.processedKeys
    case pos => simpa [hok, hkey] using hP
    by_cases hf :
      variationFilter pfx (buildVariation sel i el).classNames = true
    case neg => simpa [hok, hkey, hf] using hP
    simp only [hok, hkey, hf, Bool.not_true, if_false, if_true, if_neg,
      not_false_iff, Bool.not_eq_true]
    constructor
    · simp only [List.map_append, List.map_cons, List.map_nil,
        List.nodup_append, List.nodup_cons, List.nodup_nil]
      refine ⟨by simpa [hok, hkey, hf] using hP.1, by simp, ?_⟩
      intro k hk
      simp only [List.mem_singleton]
      intro hkeq
      exact hkey (hkeq ▸ hP.2 k (by simpa [hok, hkey, hf] using hk))
    · intro k hk
      simp only [List.map_append, List.map_cons, List.map_nil,
        List.mem_append, List.mem_singleton] at hk
      rcases hk with hk | hk
      · exact List.mem_append_left _ (hP.2 k (by simpa using hk))
      · simp [hk]

theorem scan_accepted_shape (sel pfx : Str) (els : List RawElemSnapshot) :
    ∀ p ∈ (scanElements sel pfx els).accepted,
      ∃ i, p.2 = buildVariation sel i p.1 := by
  refine foldl_processElem_inv sel pfx
    (fun st => ∀ p ∈ st.accepted, ∃ i, p.2 = buildVariation sel i p.1)
    ?_ els.enum { processedKeys := [], accepted := [] } (by simp)
  intro st i el hP
  unfold processElem
  by_cases hok : el.extractOk
  case neg => simpa [hok] using hP
  by_cases hkey : fingerprint el ∈ st.processedKeys
  case pos => simpa [hok, hkey] using hP
  by_cases hf :
    variationFilter pfx (buildVariation sel i el).classNames = true
  case neg => simpa [hok, hkey, hf] using hP
  simp only [hok, hkey, hf, Bool.not_true, if_true, if_neg,
    not_false_iff, Bool.not_eq_true]
  intro p hp
  simp only [List.mem_append, List.mem_singleton] at hp
  rcases hp with hp | hp
  · exact hP p hp
  · exact ⟨i, by simp [hp]⟩

/-! ## Claim C2 — class-prefix filter -/

/-- C2: with a non-empty filter string, `findElementVariations` accepts a
candidate exactly when some class token contains the filter substring and
no class token contains both the filter substring and `"__"`; with an empty
filter string every candidate passes the filter; and for the filter
`wp-block-`, classes `["wp-block-button"]` are accepted while
`["wp-block-button__link"]` and
`["wp-block-button", "wp-block-button__link"]` are rejected. -/
theorem c2_variation_filter :
    (∀ cls : List Str, variationFilter [] cls = true) ∧
    (∀ (pfx : Str) (cls : List Str), pfx ≠ [] →
      (variationFilter pfx cls = true ↔
        ((∃ c ∈ cls, containsSub pfx c = true) ∧
          ¬ ∃ c ∈ cls, containsSub pfx c = true ∧
            containsSub "__".data c = true))) ∧
    (∀ (sel pfx : Str) (st : ScanState) (i : Nat) (el : RawElemSnapshot),
      el.extractOk = true → fingerprint el ∉ st.processedKeys →
      (processElem sel pfx st i el).accepted =
        st.accepted ++
          (if variationFilter pfx (classTokens el.className) = true
            then [(el, buildVariation sel i el)] else [])) ∧
    findElementVariations "*".data "wp-block-".data [elWpButton] =
      [buildVariation "*".data 0 elWpButton] ∧
    findElementVariations "*".data "wp-block-".data [elWpLink] = [] ∧
    findElementVariations "*".data "wp-block-".data [elWpBoth] = [] := by
  refine ⟨?_, ?_, processElem_accepted, by decide, by decide, by decide⟩
  · intro cls; simp [variationFilter]
  · intro pfx cls h
    have hne : pfx.isEmpty = false := by
      cases pfx with
      | nil => exact absurd rfl h
      | cons c cs => rfl
    have heq : variationFilter pfx cls =
        ((cls.any fun c => containsSub pfx c) &&
          !(cls.any fun c =>
            containsSub pfx c && containsSub "__".data c)) := by
      simp [variationFilter, hne]
    rw [heq, Bool.and_eq_true, Bool.not_eq_true']
    constructor
    · rintro ⟨h1, h2⟩
      obtain ⟨c, hc, hcc⟩ := List.any_eq_true.mp h1
      refine ⟨⟨c, hc, hcc⟩, ?_⟩
      rintro ⟨d, hd, hd1, hd2⟩
      have hfalse := List.any_eq_false.mp h2 d hd
      simp [hd1, hd2] at hfalse
    · rintro ⟨⟨c, hc, hcc⟩, hno⟩
      refine ⟨List.any_eq_true.mpr ⟨c, hc, hcc⟩,
        List.any_eq_false.mpr ?_⟩
      intro d hd hdd
      rw [Bool.and_eq_true] at hdd
      exact hno ⟨d, hd, hdd.1, hdd.2⟩

/-- C2 witness: the filter equivalence and the acceptance step evaluated on
the `wp-block-button` element. -/
theorem c2_witness :
    (variationFilter "wp-block-".data ["wp-block-button".data] = true ↔
      ((∃ c ∈ ["wp-block-button".data],
          containsSub "wp-block-".data c = true) ∧
        ¬ ∃ c ∈ ["wp-block-button".data],
            containsSub "wp-block-".data c = true ∧
            containsSub "__".data c = true)) ∧
    (processElem "*".data "wp-block-".data
        { processedKeys := [], accepted := [] } 0 elWpButton).accepted =
      [] ++
        (if variationFilter "wp-block-".data
            (classTokens elWpButton.className) = true
          then [(elWpButton, buildVariation "*".data 0 elWpButton)]
          else []) :=
  ⟨c2_variation_filter.2.1 _ _ (by decide),
   c2_variation_filter.2.2.1 "*".data "wp-block-".data
     { processedKeys := [], accepted := [] } 0 elWpButton (by decide)
     (by decide)⟩

/-! ## Claim C3 — in-scan fingerprint deduplication -/

/-- C3: within one `findElementVariations` call no two accepted variations
share a fingerprint key (the concatenation of lowercase tag, raw class
string, and bounding-box x/y with a missing box contributing 0/0), and an
element whose key is already in the processed set leaves the scan state
unchanged — it is neither appended nor reprocessed. -/
theorem c3_fingerprint_dedup :
    (∀ (sel pfx : Str) (els : List RawElemSnapshot),
      ((scanElements sel pfx els).accepted.map
        (fun p => fingerprint p.1)).Nodup) ∧
    (∀ (sel pfx : Str) (st : ScanState) (i : Nat) (el : RawElemSnapshot),
      fingerprint el ∈ st.processedKeys →
      processElem sel pfx st i el = st) :=
  ⟨scan_keys_nodup, processElem_skip⟩

/-- C3 witness: two elements with identical tag, class string and
coordinates but different text produce a single accepted variation, and the
duplicate leaves the state unchanged. -/
theorem c3_witness :
    ((scanElements "*".data [] [elWpButton, elWpDup]).accepted.map
      (fun p => fingerprint p.1)).Nodup ∧
    processElem "*".data [] (scanElements "*".data [] [elWpButton]) 1
        elWpDup =
      scanElements "*".data [] [elWpButton] ∧
    (scanElements "*".data [] [elWpButton, elWpDup]).accepted.length = 1 :=
  ⟨c3_fingerprint_dedup.1 "*".data [] [elWpButton, elWpDup],
   c3_fingerprint_dedup.2 "*".data [] (scanElements "*".data [] [elWpButton])
     1 elWpDup (by decide),
   by decide⟩

/-! ## Claim C8 — text summarisation -/

/-- C8 counterexample: an element with one image and 21 characters of text
(no surrounding whitespace).  The claim predicts the summary
`"abcdefghijklmnopqrstu... ([Image: pic])"` — first 30 characters followed
unconditionally by `"..."` — but the code appends `"..."` only when the
untrimmed text is longer than 30 characters, so it produces
`"abcdefghijklmnopqrstu ([Image: pic])"`. -/
theorem c8_counterexample :
    elC8.images ≠ [] ∧ 20 ≤ (trimL elC8.textContent).length ∧
    contentInfo elC8 = "abcdefghijklmnopqrstu ([Image: pic])".data ∧
    claimSummaryLong elC8 =
      "abcdefghijklmnopqrstu... ([Image: pic])".data ∧
    contentInfo elC8 ≠ claimSummaryLong elC8 := by
  refine ⟨by decide, by decide, by decide, by decide, by decide⟩

/-- C8 amended: as claim C8, except that in the ≥ 20-character branch the
ellipsis after the first 30 characters appears exactly when the untrimmed
text is longer than 30 characters (and the image-descriptor fallback for a
missing alt uses `src.split("/").pop() || src`, i.e. the full source string
when the final path segment is empty). -/
theorem c8_text_summary :
    (∀ el : RawElemSnapshot, el.images = [] →
      contentInfo el = trimL el.textContent) ∧
    (∀ el : RawElemSnapshot, el.images ≠ [] →
      (trimL el.textContent).length < 20 →
      contentInfo el =
        List.intercalate ", ".data (el.images.map imageDescriptor)) ∧
    (∀ el : RawElemSnapshot, el.images ≠ [] →
      20 ≤ (trimL el.textContent).length →
      contentInfo el =
        (trimL el.textContent).take 30 ++
          (if 30 < el.textContent.length then "...".data else []) ++
          " (".data ++
          List.intercalate ", ".data (el.images.map imageDescriptor) ++
          ")".data) ∧
    (∀ img : ImageInfo, img.alt ≠ [] →
      imageDescriptor img =
        "[Image: ".data ++ img.alt.take 50 ++
          (if 50 < img.alt.length then "...".data else []) ++ "]".data) ∧
    (∀ (sel pfx : Str) (els : List RawElemSnapshot) p,
      p ∈ (scanElements sel pfx els).accepted →
      p.2.textContent = (contentInfo p.1).take 150 ∧
        p.2.textContent.length ≤ 150) := by
  refine ⟨?_, ?_, ?_, ?_, ?_⟩
  · intro el h; simp [contentInfo, h]
  · intro el h h20
    have hne : el.images.isEmpty = false := by
      cases hi : el.images with
      | nil => exact absurd hi h
      | cons a l => rfl
    simp [contentInfo, hne, h20]
  · intro el h h20
    have hne : el.images.isEmpty = false := by
      cases hi : el.images with
      | nil => exact absurd hi h
      | cons a l => rfl
    simp [contentInfo, hne,
      (by omega : ¬ (trimL el.textContent).length < 20)]
    intro hlt
    exact absurd hlt (by omega)
  · intro img h
    have hne : img.alt.isEmpty = false := by
      cases hi : img.alt with
      | nil => exact absurd hi h
      | cons a l => rfl
    simp [imageDescriptor, hne]
  · intro sel pfx els p hp
    obtain ⟨i, hv⟩ := scan_accepted_shape sel pfx els p hp
    rw [hv]
    refine ⟨rfl, ?_⟩
    simpa [buildVariation] using List.length_take_le 150 (contentInfo p.1)

/-- C8 witness: the amended branches evaluated on concrete elements — the
no-image branch on `elWpDup`, the long-text-with-image branch on `elC8`,
and the alt-text descriptor on a concrete image. -/
theorem c8_witness :
    contentInfo elWpDup = trimL elWpDup.textContent ∧
    contentInfo elC8 =
      (trimL elC8.textContent).take 30 ++
        (if 30 < elC8.textContent.length then "...".data else []) ++
        " (".data ++
        List.intercalate ", ".data (elC8.images.map imageDescriptor) ++
        ")".data ∧
    imageDescriptor { src := "x.png".data, alt := "pic".data } =
      "[Image: ".data ++ "pic".data.take 50 ++
        (if 50 < "pic".data.length then "...".data else []) ++ "]".data :=
  ⟨c8_text_summary.1 elWpDup rfl,
   c8_text_summary.2.2.1 elC8 (by decide) (by decide),
   c8_text_summary.2.2.2.1 { src := "x.png".data, alt := "pic".data }
     (by decide)⟩

/-! ## Claim C9 — positional selector construction -/

/-- C9: every accepted variation's `actualSelector` is the original
selector with its pre-existing `:nth-child(k)` clause stripped and
`:nth-child(N)` appended, where N is one plus the element's 0-based index
among all children of its parent (1 when it has no parent); the display
`selector` is the same string with the first literal `*` replaced by the
element's lowercase tag name — a replacement applied to the display
selector only. -/
theorem c9_selector_construction (sel pfx : Str)
    (els : List RawElemSnapshot) :
    ∀ p ∈ (scanElements sel pfx els).accepted,
      p.2.actualSelector =
        stripNthChild sel ++ ":nth-child(".data ++
          natChars (actualPosition p.1) ++ ")".data ∧
      p.2.selector =
        replaceFirst "*".data p.1.tagName (stripNthChild sel) ++
          ":nth-child(".data ++ natChars (actualPosition p.1) ++ ")".data ∧
      actualPosition p.1 =
        (match p.1.childIndex with | none => 1 | some k => k + 1) := by
  intro p hp
  obtain ⟨i, hv⟩ := scan_accepted_shape sel pfx els p hp
  rw [hv]
  exact ⟨rfl, rfl, rfl⟩

/-- C9 witness: the selector `*:nth-child(1)` applied to a `span` at child
index 2 yields `actualSelector = "*:nth-child(3)"` and display selector
`"span:nth-child(3)"`. -/
theorem c9_witness :
    (elC9, buildVariation selC9 0 elC9) ∈
      (scanElements selC9 "wp-block-".data [elC9]).accepted ∧
    (buildVariation selC9 0 elC9).actualSelector = "*:nth-child(3)".data ∧
    (buildVariation selC9 0 elC9).selector = "span:nth-child(3)".data := by
  refine ⟨by decide, ?_, ?_⟩
  · exact ((c9_selector_construction selC9 "wp-block-".data [elC9]
      (elC9, buildVariation selC9 0 elC9) (by decide)).1).trans (by decide)
  · exact ((c9_selector_construction selC9 "wp-block-".data [elC9]
      (elC9, buildVariation selC9 0 elC9)
      (by decide)).2.1).trans (by decide)

/-! ## Claim C10 — screenshot cap -/

theorem modifyIdx_length (f : α → α) (n : Nat) (l : List α) :
    (modifyIdx f n l).length = l.length := by
  induction l generalizing n with
  | nil => simp [modifyIdx]
  | cons a l ih =>
    cases n with
    | zero => simp [modifyIdx]
    | succ m => simp [modifyIdx, ih]

theorem getElem?_modifyIdx (f : α → α) (n i : Nat) (l : List α) :
    (modifyIdx f n l)[i]? = if i = n then l[i]?.map f else l[i]? := by
  induction l generalizing n i with
  | nil => simp [modifyIdx]
  | cons a l ih =>
    cases n with
    | zero =>
      cases i with
      | zero => simp [modifyIdx]
      | succ j => simp [modifyIdx]
    | succ m =>
      cases i with
      | zero => simp [modifyIdx]
      | succ j => simpa [modifyIdx] using ih m j

theorem foldl_modifyIdx_length (f : Nat → α → α) (idxs : List Nat)
    (l : List α) :
    (idxs.foldl (fun acc j => modifyIdx (f j) j acc) l).length =
      l.length := by
  induction idxs generalizing l with
  | nil => rfl
  | cons j rest ih => rw [List.foldl_cons, ih, modifyIdx_length]

theorem foldl_modifyIdx_getElem (f : Nat → α → α) (idxs : List Nat)
    (l : List α) (i : Nat) (hnd : idxs.Nodup) :
    (idxs.foldl (fun acc j => modifyIdx (f j) j acc) l)[i]? =
      if i ∈ idxs then l[i]?.map (f i) else l[i]? := by
  induction idxs generalizing l with
  | nil => simp
  | cons j rest ih =>
    have hj : j ∉ rest := (List.nodup_cons.mp hnd).1
    have hnd' : rest.Nodup := (List.nodup_cons.mp hnd).2
    rw [List.foldl_cons, ih _ hnd']
    by_cases hij : i = j
    · subst hij
      simp [hj, getElem?_modifyIdx]
    · by_cases hir : i ∈ rest <;> simp [hij, hir, getElem?_modifyIdx]

/-- C10: `takeScreenshots` attempts capture only for the first
`min(variations.length, 50)` variations, in list order: every variation at
index 50 or beyond is returned exactly as it went in (in particular its
`screenshotPath` stays `none`), while an index below the cap is updated
exactly when its attempt succeeds. -/
theorem c10_screenshot_cap (attempt : Nat → Bool) (timestamp : Nat → Nat)
    (vars : List Variation) :
    (takeScreenshots attempt timestamp vars).length = vars.length ∧
    (∀ i, 50 ≤ i →
      (takeScreenshots attempt timestamp vars)[i]? = vars[i]?) ∧
    (∀ i, i < min vars.length 50 →
      (takeScreenshots attempt timestamp vars)[i]? =
        vars[i]?.map (fun v =>
          if attempt i then
            { v with screenshotPath := some (screenshotName i (timestamp i)) }
          else v)) := by
  unfold takeScreenshots
  refine ⟨foldl_modifyIdx_length _ _ _, ?_, ?_⟩
  · intro i h50
    rw [foldl_modifyIdx_getElem _ _ _ _ (List.nodup_range _)]
    have hnotin : i ∉ List.range (min vars.length 50) := by
      simp only [List.mem_range]
      omega
    simp [hnotin]
  · intro i hi
    rw [foldl_modifyIdx_getElem _ _ _ _ (List.nodup_range _)]
    simp [List.mem_range, hi]

/-- C10 witness: with 51 variations and an always-succeeding capture
oracle, index 50 is returned untouched (screenshot path still `none`)
while index 0 is captured. -/
theorem c10_witness :
    (takeScreenshots (fun _ => true) (fun _ => 0) varsC10)[50]? =
      varsC10[50]? ∧
    varsC10[50]? = some varBlank ∧
    (takeScreenshots (fun _ => true) (fun _ => 0) varsC10)[0]? =
      some { varBlank with
        screenshotPath := some (screenshotName 0 0) } :=
  ⟨(c10_screenshot_cap (fun _ => true) (fun _ => 0) varsC10).2.1 50
      (by decide),
   by decide,
   ((c10_screenshot_cap (fun _ => true) (fun _ => 0) varsC10).2.2 0
      (by decide)).trans (by decide)⟩

/-! ## URL helper lemmas for claim C7 -/

theorem startsWithL_decomp : ∀ {pat l : Str},
    startsWithL pat l = true → l = pat ++ l.drop pat.length
  | [], l, _ => by simp
  | p :: ps, [], h => by simp [startsWithL] at h
  | p :: ps, c :: cs, h => by
    simp only [startsWithL, Bool.and_eq_true, beq_iff_eq] at h
    obtain ⟨rfl, h2⟩ := h
    simpa using startsWithL_decomp h2

theorem takeWhile_append_all {p : Char → Bool} {l : Str} (r : Str)
    (h : ∀ c ∈ l, p c = true) :
    (l ++ r).takeWhile p = l ++ r.takeWhile p := by
  induction l with
  | nil => rfl
  | cons a l ih =>
    have ha := h a (List.mem_cons_self a l)
    simp only [List.cons_append, List.takeWhile_cons, ha, if_true]
    rw [ih fun c hc => h c (List.mem_cons_of_mem a hc)]

theorem dropWhile_append_all {p : Char → Bool} {l : Str} (r : Str)
    (h : ∀ c ∈ l, p c = true) :
    (l ++ r).dropWhile p = r.dropWhile p := by
  induction l with
  | nil => rfl
  | cons a l ih =>
    have ha := h a (List.mem_cons_self a l)
    simp only [List.cons_append, List.dropWhile_cons, ha, if_true]
    exact ih fun c hc => h c (List.mem_cons_of_mem a hc)

theorem takeWhile_comp (p q : Char → Bool) (l : Str) :
    (l.takeWhile q).takeWhile p = l.takeWhile (fun c => q c && p c) := by
  induction l with
  | nil => rfl
  | cons a l ih =>
    by_cases hq : q a <;> by_cases hp : p a <;>
      simp [List.takeWhile_cons, hq, hp, ih]

theorem schemeChar_not_delim {c : Char} (h : isSchemeChar c = true) :
    (c != '#') = true ∧ (c != '?') = true := by
  constructor <;> · rw [bne_iff_ne]; rintro rfl; revert h; decide

theorem notAuthEnd_not_delim {c : Char} (h : notAuthEnd c = true) :
    (c != '#') = true ∧ (c != '?') = true := by
  unfold notAuthEnd at h
  rw [Bool.not_eq_true', Bool.or_eq_false_iff, Bool.or_eq_false_iff] at h
  constructor <;> rw [bne_iff_ne] <;> rintro rfl <;> simp at h

/-- Stripping the fragment and the query of a URL does not change its
hostname. -/
theorem hostname_cleanUrl {u h : Str} (hu : hostname u = some h) :
    hostname (cleanUrl u) = some h := by
  unfold hostname at hu
  cases hsch : (u.takeWhile isSchemeChar).isEmpty with
  | true => simp [hsch] at hu
  | false =>
  rw [hsch] at hu
  simp only [Bool.false_eq_true, if_false] at hu
  cases hsw : startsWithL "://".data (u.dropWhile isSchemeChar) with
  | false => simp [hsw] at hu
  | true =>
  rw [hsw] at hu
  simp only [if_true] at hu
  set s := u.takeWhile isSchemeChar with hs
  set rest := (u.dropWhile isSchemeChar).drop 3 with hrest
  have hs_all : ∀ c ∈ s, isSchemeChar c = true :=
    fun c hc => List.mem_takeWhile_imp hc
  have hu_decomp : u = s ++ ':' :: '/' :: '/' :: rest := by
    conv_lhs => rw [← List.takeWhile_append_dropWhile (p := isSchemeChar)
      (l := u)]
    rw [startsWithL_decomp hsw]
    rfl
  have hnh_all : ∀ c ∈ s, (c != '#') = true :=
    fun c hc => (schemeChar_not_delim (hs_all c hc)).1
  have hclean : cleanUrl u =
      s ++ ':' :: '/' :: '/' ::
        ((rest.takeWhile (fun c => c != '#')).takeWhile
          (fun c => c != '?')) := by
    rw [cleanUrl, hu_decomp, takeWhile_append_all _ hnh_all]
    simp only [List.takeWhile_cons]
    norm_num
    rw [takeWhile_append_all _
      (fun c hc => (schemeChar_not_delim (hs_all c hc)).2)]
    simp [List.takeWhile_cons]
  rw [hostname, hclean]
  have htw : (s ++ ':' :: '/' :: '/' ::
      ((rest.takeWhile (fun c => c != '#')).takeWhile
        (fun c => c != '?'))).takeWhile isSchemeChar = s := by
    rw [takeWhile_append_all _ hs_all]
    simp [List.takeWhile_cons, isSchemeChar]
  have hdw : (s ++ ':' :: '/' :: '/' ::
      ((rest.takeWhile (fun c => c != '#')).takeWhile
        (fun c => c != '?'))).dropWhile isSchemeChar =
      ':' :: '/' :: '/' ::
        ((rest.takeWhile (fun c => c != '#')).takeWhile
          (fun c => c != '?')) := by
    rw [dropWhile_append_all _ hs_all]
    simp [List.dropWhile_cons, isSchemeChar]
  rw [htw, hsch, hdw]
  simp only [Bool.false_eq_true, if_false]
  have hsw2 : startsWithL "://".data
      (':' :: '/' :: '/' ::
        ((rest.takeWhile (fun c => c != '#')).takeWhile
          (fun c => c != '?'))) = true := by
    simp [startsWithL]
  rw [hsw2]
  simp only [if_true, List.drop_succ_cons, List.drop_zero]
  have hauth : ((rest.takeWhile (fun c => c != '#')).takeWhile
      (fun c => c != '?')).takeWhile notAuthEnd =
      rest.takeWhile notAuthEnd := by
    rw [takeWhile_comp, takeWhile_comp]
    have hpt : (fun c : Char => (c != '#') && ((c != '?') && notAuthEnd c)) =
        notAuthEnd := by
      funext c
      cases hna : notAuthEnd c with
      | true =>
        rw [(notAuthEnd_not_delim hna).1, (notAuthEnd_not_delim hna).2]
        rfl
      | false => simp
    rw [hpt]
  rw [hauth]
  exact hu

theorem mem_insertionDedup_go :
    ∀ (seen l : List Str) (x : Str), x ∈ insertionDedupGo seen l → x ∈ l
  | _, [], _, h => absurd h (List.not_mem_nil _)
  | seen, y :: ys, x, h => by
    unfold insertionDedupGo at h
    by_cases hy : y ∈ seen
    · simp only [hy, if_true] at h
      exact List.mem_cons_of_mem _ (mem_insertionDedup_go seen ys x h)
    · simp only [hy, if_false] at h
      rcases List.mem_cons.mp h with rfl | h2
      · exact List.mem_cons_self _ _
      · exact List.mem_cons_of_mem _
          (mem_insertionDedup_go (seen ++ [y]) ys x h2)

theorem insertionDedup_go_not_seen :
    ∀ (seen l : List Str) (x : Str), x ∈ insertionDedupGo seen l →
      x ∉ seen
  | _, [], _, h => absurd h (List.not_mem_nil _)
  | seen, y :: ys, x, h => by
    unfold insertionDedupGo at h
    by_cases hy : y ∈ seen
    · simp only [hy, if_true] at h
      exact insertionDedup_go_not_seen seen ys x h
    · simp only [hy, if_false] at h
      rcases List.mem_cons.mp h with rfl | h2
      · exact hy
      · intro hx
        exact insertionDedup_go_not_seen (seen ++ [y]) ys x h2
          (List.mem_append_left _ hx)

theorem insertionDedup_go_nodup :
    ∀ (seen l : List Str), (insertionDedupGo seen l).Nodup
  | _, [] => List.nodup_nil
  | seen, y :: ys => by
    unfold insertionDedupGo
    by_cases hy : y ∈ seen
    · simp only [hy, if_true]
      exact insertionDedup_go_nodup seen ys
    · simp only [hy, if_false, List.nodup_cons]
      refine ⟨?_, insertionDedup_go_nodup (seen ++ [y]) ys⟩
      intro hmem
      exact insertionDedup_go_not_seen (seen ++ [y]) ys y hmem
        (List.mem_append_right _ (List.mem_singleton_self y))

theorem insertionDedup_nodup (l : List Str) : (insertionDedup l).Nodup :=
  insertionDedup_go_nodup [] l

theorem mem_insertionDedup {x : Str} {l : List Str}
    (h : x ∈ insertionDedup l) : x ∈ l :=
  mem_insertionDedup_go [] l x h

/-! ## Claim C7 — link discovery -/

/-- C7 counterexample: on a page located at `https://other.example/page`
crawled with base domain `a.example`, the root-relative href `/x` is
resolved to `https://a.example/x` — against the `baseDomain` argument — and
is returned, whereas the claim's rule "resolved against the current page's
scheme+domain" would produce `https://other.example/x` (which would then be
discarded as cross-domain). -/
theorem c7_counterexample :
    resolveHref domC7 "a.example".data "/x".data =
      some "https://a.example/x".data ∧
    specRootRelative domC7 "/x".data = "https://other.example/x".data ∧
    discoverSameDomainLinks "a.example".data [] [] [] domC7 =
      ["https://a.example/x".data] ∧
    "https://a.example/x".data ≠ "https://other.example/x".data := by
  refine ⟨by decide, by decide, by decide, by decide⟩

/-- C7 amended: every URL returned by `discoverSameDomainLinks` has
hostname exactly `baseDomain`, contains neither `#` nor `?`, and occurs at
most once; fragment-only, `mailto:` and `tel:` hrefs are never resolved;
root-relative hrefs are resolved against the current page's scheme and the
`baseDomain` argument (not the page's own domain); hrefs starting with
`http` pass through; all other non-empty forms resolve against the current
page URL. -/
theorem c7_link_discovery (domain : Str) (visited : List Str)
    (includePatterns excludePatterns : List Str) (dom : PageDom) :
    (∀ u ∈ discoverSameDomainLinks domain visited includePatterns
        excludePatterns dom,
      hostname u = some domain ∧ '#' ∉ u ∧ '?' ∉ u) ∧
    (discoverSameDomainLinks domain visited includePatterns
      excludePatterns dom).Nodup ∧
    (∀ href : Str,
      (startsWithL "#".data href || startsWithL "mailto:".data href ||
        startsWithL "tel:".data href) = true →
      resolveHref dom domain href = none) ∧
    (∀ href : Str, startsWithL "/".data href = true →
      resolveHref dom domain href =
        some (dom.protocol ++ "//".data ++ domain ++ href)) ∧
    (∀ href : Str, startsWithL "http".data href = true →
      resolveHref dom domain href = some href) ∧
    (∀ href : Str, href ≠ [] → startsWithL "/".data href = false →
      startsWithL "http".data href = false →
      startsWithL "#".data href = false →
      startsWithL "mailto:".data href = false →
      startsWithL "tel:".data href = false →
      resolveHref dom domain href = urlResolve dom.href href) := by
  have hmem : ∀ u ∈ discoverSameDomainLinks domain visited includePatterns
      excludePatterns dom,
      ∃ abs, hostname abs = some domain ∧ u = cleanUrl abs := by
    intro u hu
    unfold discoverSameDomainLinks at hu
    have hu2 : u ∈ (insertionDedup (dom.anchors.filterMap (fun href =>
        match resolveHref dom domain href with
        | none => none
        | some abs =>
          match hostname abs with
          | some linkDomain =>
            if linkDomain == domain then some (cleanUrl abs) else none
          | none => none))).filter
        (fun v => !(visited.contains v)) := by
      by_cases hex : excludePatterns.isEmpty <;>
        by_cases hin : includePatterns.isEmpty <;>
        simp only [hex, hin, if_true, if_false] at hu <;>
        first
          | exact hu
          | exact List.mem_of_mem_filter hu
          | exact List.mem_of_mem_filter (List.mem_of_mem_filter hu)
    have hu3 := mem_insertionDedup (List.mem_of_mem_filter hu2)
    obtain ⟨href, _, hf⟩ := List.mem_filterMap.mp hu3
    cases hr : resolveHref dom domain href with
    | none => simp [hr] at hf
    | some abs =>
      simp only [hr] at hf
      cases hh : hostname abs with
      | none => simp [hh] at hf
      | some linkDomain =>
        simp only [hh] at hf
        by_cases hld : linkDomain == domain
        · rw [if_pos hld] at hf
          refine ⟨abs, ?_, (Option.some_injective _ hf).symm⟩
          rw [hh, beq_iff_eq.mp hld]
        · rw [if_neg hld] at hf
          exact absurd hf (by simp)
  refine ⟨?_, ?_, ?_, ?_, ?_, ?_⟩
  · intro u hu
    obtain ⟨abs, habs, rfl⟩ := hmem u hu
    refine ⟨hostname_cleanUrl habs, ?_, ?_⟩
    · intro hc
      have h1 := List.mem_takeWhile_imp
        ((List.takeWhile_sublist _).subset hc)
      simp at h1
    · intro hc
      have h1 := List.mem_takeWhile_imp hc
      simp at h1
  · have h1 : (insertionDedup (dom.anchors.filterMap (fun href =>
        match resolveHref dom domain href with
        | none => none
        | some abs =>
          match hostname abs with
          | some linkDomain =>
            if linkDomain == domain then some (cleanUrl abs) else none
          | none => none))).Nodup := insertionDedup_nodup _
    unfold discoverSameDomainLinks
    by_cases hex : excludePatterns.isEmpty <;>
      by_cases hin : includePatterns.isEmpty <;>
      simp only [hex, hin, if_true, if_false] <;>
      first
        | exact h1.filter _
        | exact (h1.filter _).filter _
        | exact ((h1.filter _).filter _).filter _
  · intro href h
    rcases Bool.or_eq_true_iff.mp h with h | h
    rcases Bool.or_eq_true_iff.mp h with h | h
    · cases href with
      | nil => simp [startsWithL] at h
      | cons c cs =>
        simp only [startsWithL, Bool.and_eq_true, beq_iff_eq] at h
        obtain ⟨rfl, -⟩ := h
        simp [resolveHref, startsWithL]
    · cases href with
      | nil => simp [startsWithL] at h
      | cons c cs =>
        simp only [startsWithL, Bool.and_eq_true, beq_iff_eq] at h
        obtain ⟨rfl, h2⟩ := h
        simp [resolveHref, startsWithL, h2]
    · cases href with
      | nil => simp [startsWithL] at h
      | cons c cs =>
        simp only [startsWithL, Bool.and_eq_true, beq_iff_eq] at h
        obtain ⟨rfl, h2⟩ := h
        simp [resolveHref, startsWithL, h2]
  · intro href h
    cases href with
    | nil => simp [startsWithL] at h
    | cons c cs =>
      simp only [startsWithL, Bool.and_eq_true, beq_iff_eq] at h
      obtain ⟨rfl, -⟩ := h
      simp [resolveHref, startsWithL]
  · intro href h
    cases href with
    | nil => simp [startsWithL] at h
    | cons c cs =>
      simp only [startsWithL, Bool.and_eq_true, beq_iff_eq] at h
      obtain ⟨rfl, h2⟩ := h
      simp [resolveHref, startsWithL, h2]
  · intro href hne h1 h2 h3 h4 h5
    cases href with
    | nil => exact absurd rfl hne
    | cons c cs => simp [resolveHref, h1, h2, h3, h4, h5]

/-- C7 witness: the discovery output on the counterexample page evaluated
through the amended theorem — the returned URL's hostname is the base
domain and it contains no fragment or query. -/
theorem c7_witness :
    hostname "https://a.example/x".data = some "a.example".data ∧
    '#' ∉ "https://a.example/x".data ∧
    resolveHref domC7 "a.example".data "page2.html".data =
      urlResolve domC7.href "page2.html".data :=
  ⟨((c7_link_discovery "a.example".data [] [] [] domC7).1
      "https://a.example/x".data (by decide)).1,
   ((c7_link_discovery "a.example".data [] [] [] domC7).1
      "https://a.example/x".data (by decide)).2.1,
   (c7_link_discovery "a.example".data [] [] [] domC7).2.2.2.2.2
     "page2.html".data (by decide) (by decide) (by decide) (by decide)
     (by decide) (by decide)⟩

/-! ## Crawl-controller helper lemmas -/

theorem jsTake_of_nonneg {e : Int} (he : 0 ≤ e) (l : List α) :
    jsTake e l = l.take e.toNat := by
  unfold jsTake
  rw [if_neg (by omega)]

theorem eventOk_pc_le {o : CrawlOpts} {ev : CrawlEvent}
    (h : eventOk o ev) : eventPc ev ≤ o.maxUrls := by
  cases ev with
  | skipped url pc => exact h
  | pageOk url pc disc => exact h.1
  | pageFail url pc msg => exact h

theorem crawlInv_skipSucc {o : CrawlOpts} {s : CrawlState} {url : Str}
    {rest : List Str} (h : crawlInv o s) (hq : s.queue = url :: rest)
    (hpc : s.processedCount < o.maxUrls) :
    crawlInv o (skipSucc s url rest) := by
  obtain ⟨hA, hN, hPV, hL, hE, hF⟩ := h
  rw [hq, List.length_cons] at hA
  refine ⟨?_, hN, hPV, hL, ?_, ?_⟩
  · show s.processedCount + rest.length ≤ o.maxUrls
    omega
  · intro ev hev
    rw [show (skipSucc s url rest).events =
      s.events ++ [.skipped url s.processedCount] from rfl,
      List.mem_append] at hev
    rcases hev with hev | hev
    · exact hE ev hev
    · rw [List.mem_singleton] at hev
      subst hev
      show s.processedCount ≤ o.maxUrls
      omega
  · intro url' pc' msg' hev
    rw [show (skipSucc s url rest).events =
      s.events ++ [.skipped url s.processedCount] from rfl,
      List.mem_append] at hev
    rcases hev with hev | hev
    · exact hF url' pc' msg' hev
    · rw [List.mem_singleton] at hev
      exact absurd hev (by simp)

theorem crawlInv_failSucc {o : CrawlOpts} {s : CrawlState} {url msg : Str}
    {rest : List Str} (h : crawlInv o s) (hq : s.queue = url :: rest)
    (hpc : s.processedCount < o.maxUrls) (hnv : url ∉ s.visited) :
    crawlInv o (failSucc s url msg rest) := by
  obtain ⟨hA, hN, hPV, hL, hE, hF⟩ := h
  rw [hq, List.length_cons] at hA
  have hup : url ∉ s.processedUrls := fun hu => hnv (hPV url hu)
  refine ⟨?_, ?_, ?_, ?_, ?_, ?_⟩
  · show s.processedCount + 1 + rest.length ≤ o.maxUrls
    omega
  · show (s.processedUrls ++ [url]).Nodup
    refine List.nodup_append.mpr ⟨hN, List.nodup_singleton _,
      fun a ha hb => ?_⟩
    rw [List.mem_singleton] at hb
    subst hb
    exact hup ha
  · intro u hu
    show u ∈ s.visited ++ [url]
    rw [show (failSucc s url msg rest).processedUrls =
      s.processedUrls ++ [url] from rfl, List.mem_append] at hu
    rcases hu with hu | hu
    · exact List.mem_append_left _ (hPV u hu)
    · exact List.mem_append_right _ hu
  · show (s.processedUrls ++ [url]).length = s.processedCount + 1
    rw [List.length_append, hL]
    rfl
  · intro ev hev
    rw [show (failSucc s url msg rest).events =
      s.events ++ [.pageFail url (s.processedCount + 1) msg] from rfl,
      List.mem_append] at hev
    rcases hev with hev | hev
    · exact hE ev hev
    · rw [List.mem_singleton] at hev
      subst hev
      show s.processedCount + 1 ≤ o.maxUrls
      omega
  · intro url' pc' msg' hev
    rw [show (failSucc s url msg rest).events =
      s.events ++ [.pageFail url (s.processedCount + 1) msg] from rfl,
      List.mem_append] at hev
    show (url', msg') ∈ s.failedUrls ++ [(url, msg)]
    rcases hev with hev | hev
    · exact List.mem_append_left _ (hF url' pc' msg' hev)
    · rw [List.mem_singleton] at hev
      obtain ⟨rfl, -, rfl⟩ := CrawlEvent.pageFail.inj hev
      exact List.mem_append_right _ (List.mem_singleton_self _)

theorem okDisc_isSome (bd : Str) (o : CrawlOpts) (s : CrawlState)
    (url : Str) (rest : List Str) (page : PageModel) :
    (okDisc bd o s url rest page).isSome =
      (o.followLinks && decide (s.processedCount + 1 < o.maxDepth)) := by
  unfold okDisc
  by_cases hfl : (o.followLinks &&
      decide (s.processedCount + 1 < o.maxDepth)) = true
  · rw [if_pos hfl, hfl]
    rfl
  · rw [if_neg hfl]
    rw [Bool.not_eq_true] at hfl
    rw [hfl]
    rfl

theorem okDisc_eq_some {bd : Str} {o : CrawlOpts} {s : CrawlState}
    {url : Str} {rest : List Str} {page : PageModel} {d : DiscoveryInfo}
    (h : okDisc bd o s url rest page = some d) :
    d.pcAt = s.processedCount + 1 ∧
    d.queueBefore = rest ∧
    d.newLinks = discoverSameDomainLinks bd (s.visited ++ [url])
      o.includePatterns o.excludePatterns page.dom ∧
    d.remainingSlots = (o.maxUrls : Int) -
      ((s.processedCount + 1 : Nat) : Int) - (rest.length : Int) ∧
    d.appended = jsTake d.remainingSlots d.newLinks ∧
    d.queueAfter = rest ++ d.appended := by
  unfold okDisc at h
  by_cases hfl : (o.followLinks &&
      decide (s.processedCount + 1 < o.maxDepth)) = true
  · rw [if_pos hfl] at h
    have h2 := Option.some.inj h
    subst h2
    exact ⟨rfl, rfl, rfl, rfl, rfl, rfl⟩
  · rw [if_neg hfl] at h
    exact absurd h (by simp)

theorem crawlInv_okSucc {bd : Str} {o : CrawlOpts} {s : CrawlState}
    {url : Str} {rest : List Str} {page : PageModel} (h : crawlInv o s)
    (hq : s.queue = url :: rest) (hpc : s.processedCount < o.maxUrls)
    (hnv : url ∉ s.visited) : crawlInv o (okSucc bd o s url rest page) := by
  obtain ⟨hA, hN, hPV, hL, hE, hF⟩ := h
  rw [hq, List.length_cons] at hA
  have hup : url ∉ s.processedUrls := fun hu => hnv (hPV url hu)
  refine ⟨?_, ?_, ?_, ?_, ?_, ?_⟩
  · show (s.processedCount + 1) +
      (okSucc bd o s url rest page).queue.length ≤ o.maxUrls
    rcases hd : okDisc bd o s url rest page with _ | d
    · simp only [okSucc, hd]
      omega
    · obtain ⟨-, -, -, hrs, happ, hqa⟩ := okDisc_eq_some hd
      have hrs0 : 0 ≤ d.remainingSlots := by
        rw [hrs]
        push_cast
        omega
      simp only [okSucc, hd]
      rw [hqa, List.length_append, happ, jsTake_of_nonneg hrs0]
      have hlen := List.length_take_le d.remainingSlots.toNat d.newLinks
      have h2 : d.remainingSlots.toNat =
          o.maxUrls - (s.processedCount + 1) - rest.length := by
        rw [hrs]
        omega
      omega
  · show (s.processedUrls ++ [url]).Nodup
    refine List.nodup_append.mpr ⟨hN, List.nodup_singleton _,
      fun a ha hb => ?_⟩
    rw [List.mem_singleton] at hb
    subst hb
    exact hup ha
  · intro u hu
    show u ∈ s.visited ++ [url]
    rw [show (okSucc bd o s url rest page).processedUrls =
      s.processedUrls ++ [url] from rfl, List.mem_append] at hu
    rcases hu with hu | hu
    · exact List.mem_append_left _ (hPV u hu)
    · exact List.mem_append_right _ hu
  · show (s.processedUrls ++ [url]).length = s.processedCount + 1
    rw [List.length_append, hL]
    rfl
  · intro ev hev
    rw [show (okSucc bd o s url rest page).events =
      s.events ++ [.pageOk url (s.processedCount + 1)
        (okDisc bd o s url rest page)] from rfl,
      List.mem_append] at hev
    rcases hev with hev | hev
    · exact hE ev hev
    · rw [List.mem_singleton] at hev
      subst hev
      refine ⟨by omega, okDisc_isSome bd o s url rest page, ?_⟩
      intro d hd
      obtain ⟨h1, h2, h3, h4, h5, h6⟩ := okDisc_eq_some hd
      have hrs0 : 0 ≤ d.remainingSlots := by
        rw [h4]
        push_cast
        omega
      refine ⟨h1, ?_, hrs0, ?_, ?_⟩
      · rw [h4, h2]
      · rw [h5, jsTake_of_nonneg hrs0]
      · rw [h6, h2]
  · intro url' pc' msg' hev
    rw [show (okSucc bd o s url rest page).events =
      s.events ++ [.pageOk url (s.processedCount + 1)
        (okDisc bd o s url rest page)] from rfl,
      List.mem_append] at hev
    rcases hev with hev | hev
    · exact hF url' pc' msg' hev
    · rw [List.mem_singleton] at hev
      exact absurd hev (by simp)

/-- The loop invariant is preserved through `crawlLoop`, whether the loop
returns normally or aborts. -/
theorem crawlLoop_inv (site : Str → PageModel) (bd : Str) (o : CrawlOpts)
    (s : CrawlState) (h : crawlInv o s) :
    crawlInv o (resState (crawlLoop site bd o s)) := by
  induction s using crawlLoop.induct site bd o with
  | case1 s hq =>
    rw [crawlLoop, dif_pos hq]
    exact h
  | case2 s hq hpc url rest hv ih =>
    rw [crawlLoop, dif_neg hq, dif_pos hpc, if_pos hv]
    exact ih (crawlInv_skipSucc h (List.head_cons_tail s.queue hq).symm hpc)
  | case3 s hq hpc url rest hnv msg hnav hcont ih =>
    rw [crawlLoop, dif_neg hq, dif_pos hpc, if_neg hnv]
    simp only [hnav]
    rw [if_pos hcont]
    exact ih (crawlInv_failSucc h (List.head_cons_tail s.queue hq).symm hpc
      hnv)
  | case4 s hq hpc url hnv msg hnav hcont =>
    rw [crawlLoop, dif_neg hq, dif_pos hpc, if_neg hnv]
    simp only [hnav]
    rw [if_neg hcont]
    exact crawlInv_failSucc h (List.head_cons_tail s.queue hq).symm hpc hnv
  | case5 s hq hpc url rest hnv hnav ih =>
    rw [crawlLoop, dif_neg hq, dif_pos hpc, if_neg hnv]
    simp only [hnav]
    exact ih (crawlInv_okSucc h (List.head_cons_tail s.queue hq).symm hpc
      hnv)
  | case6 s hq hpc =>
    rw [crawlLoop, dif_neg hq, dif_neg hpc]
    exact h

/-- When `crawlLoop` aborts with an error, `continueOnError` is false and
the failing page's pair is the last entry of `failedUrls`. -/
theorem crawlLoop_error (site : Str → PageModel) (bd : Str) (o : CrawlOpts)
    (s : CrawlState) :
    ∀ msg s2, crawlLoop site bd o s = .error (msg, s2) →
      o.continueOnError = false ∧
        ∃ url, s2.failedUrls.getLast? = some (url, msg) ∧
          (url, msg) ∈ s2.failedUrls := by
  induction s using crawlLoop.induct site bd o with
  | case1 s hq =>
    intro msg s2 hc
    rw [crawlLoop, dif_pos hq] at hc
    exact absurd hc (by simp)
  | case2 s hq hpc url rest hv ih =>
    intro msg s2 hc
    rw [crawlLoop, dif_neg hq, dif_pos hpc, if_pos hv] at hc
    exact ih msg s2 hc
  | case3 s hq hpc url rest hnv msg0 hnav hcont ih =>
    intro msg s2 hc
    rw [crawlLoop, dif_neg hq, dif_pos hpc, if_neg hnv] at hc
    simp only [hnav] at hc
    rw [if_pos hcont] at hc
    exact ih msg s2 hc
  | case4 s hq hpc url hnv msg0 hnav hcont =>
    intro msg s2 hc
    rw [crawlLoop, dif_neg hq, dif_pos hpc, if_neg hnv] at hc
    simp only [hnav] at hc
    rw [if_neg hcont] at hc
    have hc2 := Except.error.inj hc
    obtain ⟨rfl, rfl⟩ := Prod.mk.injEq .. ▸ hc2
    refine ⟨Bool.eq_false_iff.mpr hcont, url, ?_, ?_⟩
    · show (s.failedUrls ++ [(url, msg0)]).getLast? = some (url, msg0)
      exact List.getLast?_concat _
    · exact List.mem_append_right _ (List.mem_singleton_self _)
  | case5 s hq hpc url rest hnv hnav ih =>
    intro msg s2 hc
    rw [crawlLoop, dif_neg hq, dif_pos hpc, if_neg hnv] at hc
    simp only [hnav] at hc
    exact ih msg s2 hc
  | case6 s hq hpc =>
    intro msg s2 hc
    rw [crawlLoop, dif_neg hq, dif_neg hpc] at hc
    exact absurd hc (by simp)

/-- An already-visited dequeued URL is skipped: the loop continues on the
rest of the queue with only a `skipped` event recorded — in particular
`processedCount` is not incremented. -/
theorem crawlLoop_skip_eq (site : Str → PageModel) (bd : Str)
    (o : CrawlOpts) (s : CrawlState) (url : Str) (rest : List Str)
    (hq : s.queue = url :: rest) (hpc : s.processedCount < o.maxUrls)
    (hv : url ∈ s.visited) :
    crawlLoop site bd o s = crawlLoop site bd o (skipSucc s url rest) := by
  conv_lhs => rw [crawlLoop]
  rw [dif_neg (by simp [hq]), dif_pos hpc]
  simp only [hq, List.head_cons, List.tail_cons]
  rw [if_pos hv]

/-- Case analysis of `scrapeSitemap`: every returned final state (and every
abort state) satisfies the loop invariant, and on success the stats are
computed from the initial URL list. -/
theorem scrapeSitemap_cases (site : Str → PageModel) (baseUrl : Str)
    (o : CrawlOpts) (manualUrls : Option (List Str))
    (sitemapUrls : List Str) :
    (∀ r, (scrapeSitemap site baseUrl o manualUrls sitemapUrls).result =
        .ok r →
      crawlInv o r.finalState ∧
      r.stats.totalPages = (match manualUrls with
        | some m => m.take o.maxUrls
        | none => sitemapUrls.take o.maxUrls).length ∧
      r.stats.successfulPages = (match manualUrls with
        | some m => m.take o.maxUrls
        | none => sitemapUrls.take o.maxUrls).length -
          r.finalState.failedUrls.length ∧
      r.stats.totalVariations = r.finalState.totalVariations ∧
      r.failedUrls = r.finalState.failedUrls) ∧
    (∀ msg s2, (scrapeSitemap site baseUrl o manualUrls sitemapUrls).result =
        .error (msg, s2) →
      crawlInv o s2) := by
  have hinv_empty : crawlInv o emptyCrawlState := by
    refine ⟨by simp [emptyCrawlState], by simp [emptyCrawlState], ?_, rfl,
      ?_, ?_⟩
    · intro u hu
      simp [emptyCrawlState] at hu
    · intro ev hev
      simp [emptyCrawlState] at hev
    · intro url pc msg hev
      simp [emptyCrawlState] at hev
  unfold scrapeSitemap
  set urls := (match manualUrls with
    | some m => m.take o.maxUrls
    | none => sitemapUrls.take o.maxUrls) with hurls
  by_cases hemp : urls.isEmpty
  · rw [if_pos hemp]
    constructor
    · intro r hr
      exact absurd hr (by simp)
    · intro msg s2 hr
      simp only [Except.error.injEq, Prod.mk.injEq] at hr
      rw [← hr.2]
      exact hinv_empty
  · rw [if_neg hemp]
    cases hh : hostname baseUrl with
    | none =>
      constructor
      · intro r hr
        exact absurd hr (by simp)
      · intro msg s2 hr
        simp only [Except.error.injEq, Prod.mk.injEq] at hr
        rw [← hr.2]
        exact hinv_empty
    | some bd =>
      have hinv0 : crawlInv o
          { queue := urls, visited := [], processedCount := 0
            processedUrls := [], failedUrls := [], totalVariations := 0
            events := [] } := by
        refine ⟨?_, by simp, ?_, rfl, ?_, ?_⟩
        · show 0 + urls.length ≤ o.maxUrls
          have : urls.length ≤ o.maxUrls := by
            rw [hurls]
            cases manualUrls with
            | none => simp [List.length_take]
            | some m => simp [List.length_take]
          omega
        · intro u hu
          simp at hu
        · intro ev hev
          simp at hev
        · intro url pc msg hev
          simp at hev
      have hres := crawlLoop_inv site bd o _ hinv0
      cases hcl : crawlLoop site bd o
          { queue := urls, visited := [], processedCount := 0
            processedUrls := [], failedUrls := [], totalVariations := 0
            events := [] } with
      | ok sfin =>
        rw [hcl] at hres
        constructor
        · intro r hr
          simp only [hcl] at hr
          obtain rfl := Except.ok.inj hr
          exact ⟨hres, rfl, rfl, rfl, rfl⟩
        · intro msg s2 hr
          simp only [hcl] at hr
          exact absurd hr (by simp)
      | error e =>
        rw [hcl] at hres
        constructor
        · intro r hr
          simp only [hcl] at hr
          exact absurd hr (by simp)
        · intro msg s2 hr
          simp only [hcl] at hr
          obtain rfl := Except.error.inj hr
          exact hres

/-! ## Claim C1 — crawl bound and seed-based stats -/

/-- C1: `processedCount` never exceeds `maxUrls` — neither in the final
state nor at any recorded event, however many pages the link graph could
reach — and on a normal return `stats.totalPages` is the length of the
initial seed list (`manualUrls` truncated to `maxUrls`, or the truncated
sitemap fetch result), not the number of pages processed. -/
theorem c1_crawl_bound (site : Str → PageModel) (baseUrl : Str)
    (o : CrawlOpts) (manualUrls : Option (List Str))
    (sitemapUrls : List Str) :
    (∀ r, (scrapeSitemap site baseUrl o manualUrls sitemapUrls).result =
        .ok r →
      r.stats.totalPages = (match manualUrls with
        | some m => m.take o.maxUrls
        | none => sitemapUrls.take o.maxUrls).length ∧
      r.finalState.processedCount ≤ o.maxUrls ∧
      r.finalState.processedUrls.length = r.finalState.processedCount ∧
      (∀ ev ∈ r.finalState.events, eventPc ev ≤ o.maxUrls)) ∧
    (∀ msg s2, (scrapeSitemap site baseUrl o manualUrls sitemapUrls).result =
        .error (msg, s2) →
      s2.processedCount ≤ o.maxUrls ∧
      (∀ ev ∈ s2.events, eventPc ev ≤ o.maxUrls)) := by
  obtain ⟨hok, herr⟩ :=
    scrapeSitemap_cases site baseUrl o manualUrls sitemapUrls
  constructor
  · intro r hr
    obtain ⟨⟨hA, -, -, hL, hE, -⟩, htp, -⟩ := hok r hr
    exact ⟨htp, by omega, hL, fun ev hev => eventOk_pc_le (hE ev hev)⟩
  · intro msg s2 hr
    obtain ⟨hA, -, -, -, hE, -⟩ := herr msg s2 hr
    exact ⟨by omega, fun ev hev => eventOk_pc_le (hE ev hev)⟩

/-! ## Claim C4 — visited-set non-revisit -/

/-- C4: within one crawl each URL is navigated at most once (the trace of
navigated URLs has no duplicates and its length is `processedCount`); a
dequeued URL already in the visited set is skipped without incrementing
`processedCount`; and `discoverSameDomainLinks` never returns a URL already
in the visited set. -/
theorem c4_no_revisit (site : Str → PageModel) (baseUrl : Str)
    (o : CrawlOpts) (manualUrls : Option (List Str))
    (sitemapUrls : List Str) :
    (∀ r, (scrapeSitemap site baseUrl o manualUrls sitemapUrls).result =
        .ok r →
      r.finalState.processedUrls.Nodup ∧
      r.finalState.processedUrls.length = r.finalState.processedCount) ∧
    (∀ msg s2, (scrapeSitemap site baseUrl o manualUrls sitemapUrls).result =
        .error (msg, s2) →
      s2.processedUrls.Nodup) ∧
    (∀ (site2 : Str → PageModel) (bd : Str) (s : CrawlState)
        (url : Str) (rest : List Str),
      s.queue = url :: rest → s.processedCount < o.maxUrls →
      url ∈ s.visited →
      crawlLoop site2 bd o s = crawlLoop site2 bd o (skipSucc s url rest) ∧
      (skipSucc s url rest).processedCount = s.processedCount) ∧
    (∀ (domain : Str) (visited incl excl : List Str) (dom : PageDom)
        (u : Str),
      u ∈ discoverSameDomainLinks domain visited incl excl dom →
      u ∉ visited) := by
  obtain ⟨hok, herr⟩ :=
    scrapeSitemap_cases site baseUrl o manualUrls sitemapUrls
  refine ⟨?_, ?_, ?_, ?_⟩
  · intro r hr
    obtain ⟨⟨-, hN, -, hL, -, -⟩, -⟩ := hok r hr
    exact ⟨hN, hL⟩
  · intro msg s2 hr
    exact (herr msg s2 hr).2.1
  · intro site2 bd s url rest hq hpc hv
    exact ⟨crawlLoop_skip_eq site2 bd o s url rest hq hpc hv, rfl⟩
  · intro domain visited incl excl dom u hu
    unfold discoverSameDomainLinks at hu
    have hu2 : u ∈ (insertionDedup (dom.anchors.filterMap (fun href =>
        match resolveHref dom domain href with
        | none => none
        | some abs =>
          match hostname abs with
          | some linkDomain =>
            if linkDomain == domain then some (cleanUrl abs) else none
          | none => none))).filter
        (fun v => !(visited.contains v)) := by
      by_cases hex : excl.isEmpty <;>
        by_cases hin : incl.isEmpty <;>
        simp only [hex, hin, if_true, if_false] at hu <;>
        first
          | exact hu
          | exact List.mem_of_mem_filter hu
          | exact List.mem_of_mem_filter (List.mem_of_mem_filter hu)
    have hflt := List.of_mem_filter hu2
    simpa using hflt

/-! ## Claim C5 — depth gate and remaining-slots append -/

/-- C5: with `followLinks = true`, a successfully processed page runs link
discovery exactly when `processedCount < maxDepth` at that point (so once
`processedCount ≥ maxDepth` no links are ever appended, while queued URLs
are still drained up to `maxUrls`); when discovery runs, at most
`remainingSlots = maxUrls - processedCount - queue.length` of the newly
discovered links — their prefix, in discovery order — are appended at the
tail of the queue. -/
theorem c5_depth_gate (site : Str → PageModel) (baseUrl : Str)
    (o : CrawlOpts) (manualUrls : Option (List Str))
    (sitemapUrls : List Str) (hf : o.followLinks = true) :
    (∀ r, (scrapeSitemap site baseUrl o manualUrls sitemapUrls).result =
        .ok r →
      depthGateOk o r.finalState) ∧
    (∀ msg s2, (scrapeSitemap site baseUrl o manualUrls sitemapUrls).result =
        .error (msg, s2) →
      depthGateOk o s2) := by
  obtain ⟨hok, herr⟩ :=
    scrapeSitemap_cases site baseUrl o manualUrls sitemapUrls
  have key : ∀ s : CrawlState, crawlInv o s → depthGateOk o s := by
    intro s hs url pc disc hev
    obtain ⟨-, -, -, -, hE, -⟩ := hs
    obtain ⟨-, hsome, hd⟩ := hE _ hev
    constructor
    · rw [hsome, hf, Bool.true_and, decide_eq_true_eq]
    · intro d hd2
      obtain ⟨h1, h2, h3, h4, h6⟩ := hd d hd2
      refine ⟨h1, h2, h3, h4, ?_, h6⟩
      rw [h4]
      exact List.length_take_le _ _
  exact ⟨fun r hr => key _ (hok r hr).1,
    fun msg s2 hr => key _ (herr msg s2 hr)⟩

/-! ## Claim C6 — failure recording, fatal abort, resource release -/

/-- C6: a page whose navigation or scan throws has its (url, message) pair
recorded in `failedUrls`; when `continueOnError` is false the loop aborts
immediately with that error, whose pair is the last failure recorded; and
on every exit path taken after the browser is initialized — normal return,
per-page failure with continue, or fatal abort — the `finally` block closes
the browser exactly once. -/
theorem c6_error_handling (site : Str → PageModel) (baseUrl : Str)
    (o : CrawlOpts) (manualUrls : Option (List Str))
    (sitemapUrls : List Str)
    (hne : (match manualUrls with
      | some m => m.take o.maxUrls
      | none => sitemapUrls.take o.maxUrls) ≠ []) :
    (scrapeSitemap site baseUrl o manualUrls sitemapUrls).browserCloses =
      1 ∧
    (∀ (bd : Str) (s : CrawlState) (msg : Str) (s2 : CrawlState),
      crawlLoop site bd o s = .error (msg, s2) →
      o.continueOnError = false ∧
      ∃ url, s2.failedUrls.getLast? = some (url, msg) ∧
        (url, msg) ∈ s2.failedUrls) ∧
    (∀ r, (scrapeSitemap site baseUrl o manualUrls sitemapUrls).result =
        .ok r →
      ∀ url pc msg, CrawlEvent.pageFail url pc msg ∈ r.finalState.events →
        (url, msg) ∈ r.failedUrls) ∧
    (∀ msg s2, (scrapeSitemap site baseUrl o manualUrls sitemapUrls).result =
        .error (msg, s2) →
      ∀ url pc msg2, CrawlEvent.pageFail url pc msg2 ∈ s2.events →
        (url, msg2) ∈ s2.failedUrls) := by
  obtain ⟨hok, herr⟩ :=
    scrapeSitemap_cases site baseUrl o manualUrls sitemapUrls
  refine ⟨?_, ?_, ?_, ?_⟩
  · unfold scrapeSitemap
    rw [if_neg (by simpa using hne)]
    cases hh : hostname baseUrl with
    | none =>
      simp only [hh]
    | some bd =>
      simp only [hh]
      split <;> rfl
  · intro bd s msg s2 hc
    exact crawlLoop_error site bd o s msg s2 hc
  · intro r hr url pc msg hev
    obtain ⟨⟨-, -, -, -, -, hF⟩, -, -, -, hfr⟩ := hok r hr
    rw [hfr]
    exact hF url pc msg hev
  · intro msg s2 hr url pc msg2 hev
    obtain ⟨-, -, -, -, -, hF⟩ := herr msg s2 hr
    exact hF url pc msg2 hev

/-! ## Crawl witnesses -/

set_option maxRecDepth 4000 in
set_option maxHeartbeats 1000000 in
/-- C1 witness: the two-page witness crawl returns `totalPages = 2` (the
seed count) and a final `processedCount` within `maxUrls`. -/
theorem c1_witness :
    (okStats outW).map ScrapeStats.totalPages = some 2 ∧
    (okFinalPc outW).getD 99 ≤ optsW.maxUrls := by
  cases hr : outW.result with
  | error e =>
    exfalso
    revert hr
    simp +decide [outW, scrapeSitemap, crawlLoop, siteW, optsW, urlsW,
      skipSucc, failSucc, okSucc, okDisc, hostname, discoverSameDomainLinks,
      resolveHref, insertionDedup, insertionDedupGo, cleanUrl, jsTake]
  | ok r =>
    have h := (c1_crawl_bound siteW "https://w.example".data optsW
      (some urlsW) []).1 r hr
    constructor
    · have h2 : okStats outW = some r.stats := by simp [okStats, hr]
      rw [h2]
      simp only [Option.map_some']
      rw [h.1]
      decide
    · have h2 : okFinalPc outW = some r.finalState.processedCount := by
        simp [okFinalPc, hr]
      rw [h2]
      simpa using h.2.1

set_option maxRecDepth 4000 in
set_option maxHeartbeats 1000000 in
/-- C4 witness: the witness crawl's navigated-URL trace is duplicate-free,
a visited head is skipped without touching `processedCount`, and the
discovery output avoids a non-empty visited set. -/
theorem c4_witness :
    okProcessedUrls outW ≠ none ∧
    (okProcessedUrls outW).elim True List.Nodup ∧
    crawlLoop siteW "d".data optsW sSkip =
      crawlLoop siteW "d".data optsW (skipSucc sSkip "u".data []) ∧
    (skipSucc sSkip "u".data []).processedCount = sSkip.processedCount ∧
    "https://a.example/x".data ∉ ["https://z.example/".data] := by
  have hskip := (c4_no_revisit siteW "https://w.example".data optsW
    (some urlsW) []).2.2.1 siteW "d".data sSkip "u".data [] rfl (by decide)
    (by decide)
  have hdisc := (c4_no_revisit siteW "https://w.example".data optsW
    (some urlsW) []).2.2.2 "a.example".data ["https://z.example/".data] []
    [] domC7 "https://a.example/x".data (by decide)
  cases hr : outW.result with
  | error e =>
    exfalso
    revert hr
    simp +decide [outW, scrapeSitemap, crawlLoop, siteW, optsW, urlsW,
      skipSucc, failSucc, okSucc, okDisc, hostname, discoverSameDomainLinks,
      resolveHref, insertionDedup, insertionDedupGo, cleanUrl, jsTake]
  | ok r =>
    have h := (c4_no_revisit siteW "https://w.example".data optsW
      (some urlsW) []).1 r hr
    have h2 : okProcessedUrls outW = some r.finalState.processedUrls := by
      simp [okProcessedUrls, hr]
    rw [h2]
    exact ⟨by simp, h.1, hskip.1, hskip.2, hdisc⟩

set_option maxRecDepth 8000 in
set_option maxHeartbeats 2000000 in
/-- C5 witness: in the witness crawl the first page (processed count 1,
below `maxDepth = 2`) ran discovery with `remainingSlots = 0`, appending
the empty prefix of its three discovered links; the second page (count 2)
ran none. -/
theorem c5_witness :
    ((some disc1W : Option DiscoveryInfo).isSome = true ↔
      1 < optsW.maxDepth) ∧
    disc1W.appended = disc1W.newLinks.take disc1W.remainingSlots.toNat ∧
    ((none : Option DiscoveryInfo).isSome = true ↔ 2 < optsW.maxDepth) := by
  have hev : okEvents outW = some eventsW := by
    simp +decide [outW, okEvents, scrapeSitemap, crawlLoop, siteW, optsW,
      urlsW, skipSucc, failSucc, okSucc, okDisc, hostname,
      discoverSameDomainLinks, resolveHref, insertionDedup,
      insertionDedupGo, cleanUrl, jsTake, eventsW, disc1W, startsWithL,
      lowerStr, afterLastAt, notAuthEnd, isSchemeChar]
  cases hr : outW.result with
  | error e =>
    exfalso
    revert hev
    simp [okEvents, hr]
  | ok r =>
    have h2 : okEvents outW = some r.finalState.events := by
      simp [okEvents, hr]
    have hevr : r.finalState.events = eventsW :=
      Option.some.inj (h2.symm.trans hev)
    have hmem1 : CrawlEvent.pageOk "https://w.example/".data 1
        (some disc1W) ∈ r.finalState.events := by
      rw [hevr]
      exact List.mem_cons_self _ _
    have hmem2 : CrawlEvent.pageOk "https://w.example/p2".data 2
        (none : Option DiscoveryInfo) ∈ r.finalState.events := by
      rw [hevr]
      exact List.mem_cons_of_mem _ (List.mem_cons_self _ _)
    have hkey1 := (c5_depth_gate siteW "https://w.example".data optsW
      (some urlsW) [] rfl).1 r hr _ _ _ hmem1
    have hkey2 := (c5_depth_gate siteW "https://w.example".data optsW
      (some urlsW) [] rfl).1 r hr _ _ _ hmem2
    exact ⟨hkey1.1, (hkey1.2 disc1W rfl).2.2.2.1, hkey2.1⟩

set_option maxRecDepth 4000 in
set_option maxHeartbeats 1000000 in
/-- C6 witness: the abort crawl (first page fails, `continueOnError =
false`) closes the browser exactly once, and its loop abort implies
`continueOnError = false`. -/
theorem c6_witness :
    outAbortW.browserCloses = 1 ∧ optsAbort.continueOnError = false := by
  constructor
  · exact (c6_error_handling siteW "https://w.example".data optsAbort
      (some ["https://w.example/fail".data, "https://w.example/p2".data])
      [] (by decide)).1
  · cases hc : crawlLoop siteW "w.example".data optsAbort
        { queue := ["https://w.example/fail".data,
            "https://w.example/p2".data]
          visited := [], processedCount := 0, processedUrls := []
          failedUrls := [], totalVariations := 0, events := [] } with
    | ok s =>
      exfalso
      revert hc
      simp +decide [crawlLoop, siteW, optsAbort, optsW, skipSucc, failSucc,
        okSucc, okDisc]
    | error e =>
      obtain ⟨msg, s2⟩ := e
      exact ((c6_error_handling siteW "https://w.example".data optsAbort
        (some ["https://w.example/fail".data, "https://w.example/p2".data])
        [] (by decide)).2.1 "w.example".data _ msg s2 hc).1

end Scraper
